import Mathlib

/-!
Verification development for the trimming-accuracy summarizer
(`paper/scripts/summarize_real_trimming_accuracy.py` and `paper/scripts/common.py`).

The Python source is shallowly embedded: pure helpers become Lean functions,
the per-read-identity loop of `summarize` becomes explicit state passing in an
`Except` monad (one error tag per runtime failure the source can raise), and
Python `StopIteration` is rendered as `Option`.
-/

/-! ## Trimming-boundary inference (`TableRead.set_trimming`)

The source uppercases both sequences, scans all start offsets for an exact
substring match (first hit wins), and otherwise — when `use_edit_distance` is
set — falls back to scanning every window for the minimum Levenshtein distance,
replacing the running best only on strict improvement.  With the fallback
disabled it reports the sentinel `-1`.  `trimmed_back` is always
`len(untrimmed) - (len(trimmed) + trimmed_front)`.
-/

/-- The window `untrimmed[i:(i+n)]` used by `set_trimming`. -/
def window (u : List Char) (i n : Nat) : List Char :=
  (u.drop i).take n

/-- Levenshtein edit distance, the semantics of `editdistance.eval`
(external dependency; modelled from its interface: unit-cost insert,
delete and substitute). -/
def lev : List Char → List Char → Nat
  | [], ys => ys.length
  | x :: xs, [] => (x :: xs).length
  | x :: xs, y :: ys =>
    if x = y then lev xs ys
    else 1 + min (lev xs ys) (min (lev (x :: xs) ys) (lev xs (y :: ys)))
termination_by xs ys => xs.length + ys.length
decreasing_by all_goals (simp [List.length_cons]; try omega)

/-- The exact-match scan of `set_trimming`: try offsets `i, i+1, ...`
(`fuel` offsets in all), returning the first `i` whose window equals the
trimmed sequence — the loop-with-`break` of the source. -/
def exactFrom (u t : List Char) : Nat → Nat → Option Nat
  | _, 0 => none
  | i, fuel + 1 =>
    if window u i t.length = t then some i else exactFrom u t (i + 1) fuel

/-- The loop `for i in range(untrimmed_len - trimmed_len + 1): if untrimmed[i:(i+trimmed_len)] == trimmed: trimmed_front = i; break`. -/
def exactScan (u t : List Char) : Option Nat :=
  exactFrom u t 0 (u.length - t.length + 1)

/-- The edit-distance fallback loop of `set_trimming`.  State is
`(trimmed_front, dist)` with `dist = none` for Python's initial `None`;
the source's `if not dist` branch (taken when `dist` is `None` or `0`)
resets `dist` without moving `trimmed_front`, and `elif d < dist` moves
`trimmed_front` only on strict improvement. -/
def approxFrom (u t : List Char) : Nat → Nat → Nat → Option Nat → Nat × Option Nat
  | _, 0, front, dist => (front, dist)
  | i, fuel + 1, front, dist =>
    let d := lev (window u i t.length) t
    match dist with
    | none => approxFrom u t (i + 1) fuel front (some d)
    | some ds =>
      if ds = 0 then approxFrom u t (i + 1) fuel front (some d)
      else if d < ds then approxFrom u t (i + 1) fuel i (some d)
      else approxFrom u t (i + 1) fuel front (some ds)

/-- The `trimmed_front` produced by the edit-distance fallback. -/
def approxScan (u t : List Char) : Nat :=
  (approxFrom u t 0 (u.length - t.length + 1) 0 none).1

/-- Body of `TableRead.set_trimming` after the two `.upper()` calls:
returns `(trimmed_front, trimmed_back)`.  The dangling `elif`/`else` after
the scan loop in the source is its loop-completed-without-`break` branch,
as the source's own comment about Skewer error correction indicates. -/
def trimmedFrontBack (untrimmed trimmed : List Char) (useEd : Bool) : Int × Int :=
  let m := untrimmed.length
  let n := trimmed.length
  let front : Int :=
    if n < m then
      match exactScan untrimmed trimmed with
      | some i => (i : Int)
      | none => if useEd then ((approxScan untrimmed trimmed : Nat) : Int) else -1
    else 0
  (front, (m : Int) - ((n : Int) + front))

/-- The calls `untrimmed.upper()` / `trimmed.upper()`. -/
def upperChars (s : List Char) : List Char := s.map Char.toUpper

/-- Method `TableRead.set_trimming`, as a function of the two query sequences. -/
def setTrimming (u t : List Char) (useEd : Bool) : Int × Int :=
  trimmedFrontBack (upperChars u) (upperChars t) useEd

/-! ### Facts about the exact scan -/

theorem window_occ_bound {u t : List Char} {j : Nat}
    (h : window u j t.length = t) (hn : t.length ≠ 0) :
    j + t.length ≤ u.length := by
  have hlen := congrArg List.length h
  simp only [window, List.length_take, List.length_drop] at hlen
  rcases Nat.le_total t.length (u.length - j) with hle | hle
  · omega
  · rw [Nat.min_eq_right hle] at hlen
    omega

theorem exactFrom_none {u t : List Char} :
    ∀ fuel i, exactFrom u t i fuel = none →
      ∀ j, i ≤ j → j < i + fuel → window u j t.length ≠ t := by
  intro fuel
  induction fuel with
  | zero => intro i _ j h1 h2; omega
  | succ fuel ih =>
    intro i hnone j h1 h2
    rw [exactFrom] at hnone
    by_cases hw : window u i t.length = t
    · simp [hw] at hnone
    · simp [hw] at hnone
      rcases Nat.eq_or_lt_of_le h1 with rfl | hlt
      · exact hw
      · exact ih (i + 1) hnone j hlt (by omega)

theorem exactFrom_some {u t : List Char} :
    ∀ fuel i k, exactFrom u t i fuel = some k →
      i ≤ k ∧ k < i + fuel ∧ window u k t.length = t ∧
        ∀ j, i ≤ j → j < k → window u j t.length ≠ t := by
  intro fuel
  induction fuel with
  | zero => intro i k h; simp [exactFrom] at h
  | succ fuel ih =>
    intro i k h
    rw [exactFrom] at h
    by_cases hw : window u i t.length = t
    · simp [hw] at h
      subst h
      exact ⟨Nat.le_refl _, by omega, hw, fun j h1 h2 => by omega⟩
    · simp [hw] at h
      obtain ⟨h1, h2, h3, h4⟩ := ih (i + 1) k h
      refine ⟨by omega, by omega, h3, ?_⟩
      intro j hj1 hj2
      rcases Nat.eq_or_lt_of_le hj1 with rfl | hlt
      · exact hw
      · exact h4 j hlt hj2

/-! ### Facts about the edit-distance fallback -/

theorem lev_eq_zero : ∀ a b : List Char, lev a b = 0 ↔ a = b := by
  intro a
  induction a with
  | nil => intro b; cases b <;> simp [lev]
  | cons x xs ih =>
    intro b
    cases b with
    | nil => simp [lev]
    | cons y ys =>
      by_cases hxy : x = y
      · subst hxy; simp [lev, ih]
      · simp [lev, hxy]

theorem approxFrom_inv (u t : List Char)
    (hall : ∀ j, lev (window u j t.length) t ≠ 0) :
    ∀ fuel i front ds,
      ds ≠ 0 →
      front < i →
      lev (window u front t.length) t = ds →
      (∀ j, j < i → ds ≤ lev (window u j t.length) t) →
      (∀ j, j < front → ds < lev (window u j t.length) t) →
      ∃ f' ds', approxFrom u t i fuel front (some ds) = (f', some ds') ∧
        ds' ≠ 0 ∧ f' < i + fuel ∧
        lev (window u f' t.length) t = ds' ∧
        (∀ j, j < i + fuel → ds' ≤ lev (window u j t.length) t) ∧
        (∀ j, j < f' → ds' < lev (window u j t.length) t) := by
  intro fuel
  induction fuel with
  | zero =>
    intro i front ds h0 hfi hfront hmin hstrict
    exact ⟨front, ds, rfl, h0, by omega, hfront, fun j hj => hmin j (by omega), hstrict⟩
  | succ fuel ih =>
    intro i front ds h0 hfi hfront hmin hstrict
    rw [approxFrom]
    simp only [h0, if_false]
    by_cases hlt : lev (window u i t.length) t < ds
    · simp only [if_pos hlt]
      obtain ⟨f', ds', heq, hprops⟩ :=
        ih (i + 1) i (lev (window u i t.length) t) (hall i) (by omega) rfl
          (fun j hj => by
            rcases Nat.lt_succ_iff_lt_or_eq.mp hj with hj' | rfl
            · exact le_of_lt (lt_of_lt_of_le hlt (hmin j hj'))
            · exact le_refl _)
          (fun j hj => lt_of_lt_of_le hlt (hmin j hj))
      exact ⟨f', ds', by rw [heq], by
        obtain ⟨a, b, c, d, e⟩ := hprops
        exact ⟨a, by omega, c, fun j hj => d j (by omega), e⟩⟩
    · simp only [if_neg hlt]
      obtain ⟨f', ds', heq, hprops⟩ :=
        ih (i + 1) front ds h0 (by omega) hfront
          (fun j hj => by
            rcases Nat.lt_succ_iff_lt_or_eq.mp hj with hj' | rfl
            · exact hmin j hj'
            · omega)
          hstrict
      exact ⟨f', ds', by rw [heq], by
        obtain ⟨a, b, c, d, e⟩ := hprops
        exact ⟨a, by omega, c, fun j hj => d j (by omega), e⟩⟩

/-- C5: when the trimmed sequence occurs exactly inside the untrimmed one
(both already uppercase), `set_trimming` returns the smallest occurrence
offset as `trimmed_front`, `trimmed_back = m - n - front`, and the window at
`front` round-trips to the trimmed sequence. -/
theorem setTrimming_exact_spec (u t : List Char) (e : Bool)
    (hm : t.length < u.length)
    (hu : upperChars u = u) (ht : upperChars t = t)
    (hocc : ∃ i, window u i t.length = t) :
    ∃ i : Nat, setTrimming u t e = ((i : Int), (u.length : Int) - (t.length : Int) - (i : Int)) ∧
      window u i t.length = t ∧
      (∀ j : Nat, j < i → window u j t.length ≠ t) := by
  have hocc' : ∃ i1, i1 < u.length - t.length + 1 ∧ window u i1 t.length = t := by
    by_cases hn : t.length = 0
    · refine ⟨0, by omega, ?_⟩
      have ht0 : t = [] := List.length_eq_zero.mp hn
      simp [window, hn, ht0]
    · obtain ⟨i0, hi0⟩ := hocc
      exact ⟨i0, by have := window_occ_bound hi0 hn; omega, hi0⟩
  rw [setTrimming, hu, ht]
  rw [trimmedFrontBack]
  simp only [if_pos hm]
  cases hscan : exactScan u t with
  | none =>
    obtain ⟨i1, hi1r, hi1⟩ := hocc'
    exact absurd hi1 (exactFrom_none _ 0 hscan i1 (Nat.zero_le _) (by omega))
  | some k =>
    obtain ⟨_, _, hwin, hmin⟩ := exactFrom_some _ 0 k hscan
    refine ⟨k, ?_, hwin, fun j hj => hmin j (Nat.zero_le _) hj⟩
    simp only [Prod.mk.injEq]
    exact ⟨trivial, by ring⟩

/-- Witness for C5 at the spec's own example: U = "ACGTACGTAC", T = "GTAC",
an exact substring at offset 2, giving `(trimmed_front, trimmed_back) = (2, 4)`. -/
theorem setTrimming_exact_witness :
    ((String.toList "GTAC").length < (String.toList "ACGTACGTAC").length ∧
      upperChars (String.toList "ACGTACGTAC") = String.toList "ACGTACGTAC" ∧
      upperChars (String.toList "GTAC") = String.toList "GTAC" ∧
      window (String.toList "ACGTACGTAC") 2 (String.toList "GTAC").length = String.toList "GTAC") ∧
    setTrimming (String.toList "ACGTACGTAC") (String.toList "GTAC") true = (2, 4) ∧
    (∃ i : Nat,
      setTrimming (String.toList "ACGTACGTAC") (String.toList "GTAC") true =
        ((i : Int), ((String.toList "ACGTACGTAC").length : Int) -
          ((String.toList "GTAC").length : Int) - (i : Int)) ∧
      window (String.toList "ACGTACGTAC") i (String.toList "GTAC").length = String.toList "GTAC" ∧
      (∀ j : Nat, j < i →
        window (String.toList "ACGTACGTAC") j (String.toList "GTAC").length ≠ String.toList "GTAC")) :=
  ⟨⟨by decide, by decide, by decide, by decide⟩, by decide,
    setTrimming_exact_spec _ _ true (by decide) (by decide) (by decide) ⟨2, by decide⟩⟩

/-- C6: with no exact occurrence (both sequences already uppercase) and the
edit-distance fallback enabled, `set_trimming` returns a `trimmed_front`
whose window attains the minimum Levenshtein distance to the trimmed
sequence over all offsets, and the lowest such offset wins ties. -/
theorem setTrimming_approx_spec (u t : List Char)
    (hm : t.length < u.length)
    (hu : upperChars u = u) (ht : upperChars t = t)
    (hnoexact : ∀ i < u.length - t.length + 1, window u i t.length ≠ t) :
    ∃ i : Nat, setTrimming u t true = ((i : Int), (u.length : Int) - (t.length : Int) - (i : Int)) ∧
      i ≤ u.length - t.length ∧
      (∀ j : Nat, j ≤ u.length - t.length →
        lev (window u i t.length) t ≤ lev (window u j t.length) t) ∧
      (∀ j : Nat, j < i →
        lev (window u i t.length) t < lev (window u j t.length) t) := by
  have hn0 : t.length ≠ 0 := by
    intro hn
    apply hnoexact 0 (by omega)
    have ht0 : t = [] := List.length_eq_zero.mp hn
    simp [window, hn, ht0]
  have hall : ∀ j, window u j t.length ≠ t := by
    intro j
    by_cases hj : j < u.length - t.length + 1
    · exact hnoexact j hj
    · intro hw
      have := window_occ_bound hw hn0
      omega
  have hlev : ∀ j, lev (window u j t.length) t ≠ 0 :=
    fun j h => hall j ((lev_eq_zero _ _).mp h)
  have hscan : exactScan u t = none := by
    cases hscan : exactScan u t with
    | none => rfl
    | some k =>
      obtain ⟨_, hk, hwin, _⟩ := exactFrom_some _ 0 k hscan
      exact absurd hwin (hall k)
  have h1 : approxFrom u t 0 (u.length - t.length + 1) 0 none
      = approxFrom u t 1 (u.length - t.length) 0 (some (lev (window u 0 t.length) t)) := by
    rw [approxFrom]
  obtain ⟨f', ds', heq, hds0, hfr, hlevf, hminf, hstrictf⟩ :=
    approxFrom_inv u t hlev (u.length - t.length) 1 0 (lev (window u 0 t.length) t)
      (hlev 0) (by omega) rfl
      (fun j hj => by
        have hj0 : j = 0 := by omega
        subst hj0
        exact le_refl _)
      (fun j hj => absurd hj (Nat.not_lt_zero j))
  have happrox : approxScan u t = f' := by
    rw [approxScan, h1, heq]
  rw [setTrimming, hu, ht]
  simp only [trimmedFrontBack, if_pos hm, hscan, if_pos rfl, happrox]
  refine ⟨f', ?_, by omega,
    fun j hj => by rw [hlevf]; exact hminf j (by omega),
    fun j hj => by rw [hlevf]; exact hstrictf j hj⟩
  simp only [if_true, Prod.mk.injEq]
  exact ⟨trivial, by ring⟩

/-- Witness for C6: U = "ACGT", T = "GG" has no exact occurrence; the window
distances are 2, 1, 1, so the fallback must settle on offset 1 (lowest of the
two minima). -/
theorem setTrimming_approx_witness :
    ((String.toList "GG").length < (String.toList "ACGT").length ∧
      upperChars (String.toList "ACGT") = String.toList "ACGT" ∧
      upperChars (String.toList "GG") = String.toList "GG" ∧
      (∀ i < (String.toList "ACGT").length - (String.toList "GG").length + 1,
        window (String.toList "ACGT") i (String.toList "GG").length ≠ String.toList "GG")) ∧
    (∃ i : Nat, setTrimming (String.toList "ACGT") (String.toList "GG") true =
        ((i : Int), ((String.toList "ACGT").length : Int) -
          ((String.toList "GG").length : Int) - (i : Int)) ∧
      i ≤ (String.toList "ACGT").length - (String.toList "GG").length ∧
      (∀ j : Nat, j ≤ (String.toList "ACGT").length - (String.toList "GG").length →
        lev (window (String.toList "ACGT") i (String.toList "GG").length) (String.toList "GG") ≤
          lev (window (String.toList "ACGT") j (String.toList "GG").length) (String.toList "GG")) ∧
      (∀ j : Nat, j < i →
        lev (window (String.toList "ACGT") i (String.toList "GG").length) (String.toList "GG") <
          lev (window (String.toList "ACGT") j (String.toList "GG").length) (String.toList "GG"))) :=
  ⟨⟨by decide, by decide, by decide, by decide⟩,
    setTrimming_approx_spec _ _ (by decide) (by decide) (by decide) (by decide)⟩

/-! ## Alignment records and read-pair groups

`Rec` carries the pysam record fields the scripts consult.  A group is the
`(name, r1, r2)` triple produced by `BAMReader.__next__`. -/

structure Rec where
  queryName : String
  isRead1 : Bool
  isQcfail : Bool
  isProperPair : Bool
  isReverse : Bool
  isUnmapped : Bool
  mappingQuality : Int
  referenceName : String
  referenceStart : Int
  referenceEnd : Int
  refPositions : List (Option Int)
  querySequence : List Char
deriving DecidableEq

/-- One read-pair group `(name, r1, r2)`. -/
abbrev ReadGroup : Type := String × List Rec × List Rec

/-! ## `BAMReader` (common.py): the pair assembler

`__next__` takes the cached lookahead record (or pulls one), then keeps
pulling while the query name is unchanged; the record that breaks the run is
re-cached.  When the underlying iterator is exhausted during that pull,
`StopIteration` propagates out of `__next__` (modelled as `none`) and the
records already collected for the current name are discarded — `self.cached`
is not updated on that path. -/

structure RState where
  stream : List Rec
  cached : Option Rec
deriving DecidableEq

/-- Helper `add_read`: route a record into the `r1`/`r2` sub-list by `is_read1`.
Sub-lists are accumulated in arrival order. -/
def addRead (r : Rec) (acc : List Rec × List Rec) : List Rec × List Rec :=
  if r.isRead1 then (acc.1 ++ [r], acc.2) else (acc.1, acc.2 ++ [r])

/-- The `while peek.query_name == name` loop.  Returns the finished group's
sub-lists together with the breaking record (the new cache) and the rest of
the stream, or `none` when the stream runs out mid-group. -/
def collectGroup (name : String) : List Rec → List Rec × List Rec →
    Option ((List Rec × List Rec) × Rec × List Rec)
  | [], _ => none
  | p :: rest, acc =>
    if p.queryName = name then collectGroup name rest (addRead p acc)
    else some (acc, p, rest)

/-- Method `BAMReader.__next__`: `none` is a propagated `StopIteration`. -/
def bnext (s : RState) : Option (ReadGroup × RState) :=
  let pulled : Option (Rec × List Rec) :=
    match s.cached with
    | some r => some (r, s.stream)
    | none =>
      match s.stream with
      | [] => none
      | r :: rest => some (r, rest)
  match pulled with
  | none => none
  | some (read, rest) =>
    match collectGroup read.queryName rest (addRead read ([], [])) with
    | none => none
    | some (acc, peek, rest') =>
      some ((read.queryName, acc.1, acc.2), { stream := rest', cached := some peek })

/-- Drive `__next__` until it signals end-of-stream, collecting the delivered
groups (`fuel` bounds the iteration; one record is consumed per step). -/
def readAll : Nat → RState → List ReadGroup
  | 0, _ => []
  | fuel + 1, s =>
    match bnext s with
    | none => []
    | some (g, s') => g :: readAll fuel s'

/-- All groups a `BAMReader` over the given name-sorted record list delivers. -/
def bamGroups (recs : List Rec) : List ReadGroup :=
  readAll (recs.length + 1) { stream := recs, cached := none }

/-- A plain mapped, properly-paired test record. -/
def testRec (nm : String) (r1 : Bool) : Rec :=
  { queryName := nm, isRead1 := r1, isQcfail := false, isProperPair := true,
    isReverse := !r1, isUnmapped := false, mappingQuality := 60,
    referenceName := "chr1", referenceStart := 0, referenceEnd := 4,
    refPositions := [some 1, some 2, some 3, some 4],
    querySequence := String.toList "ACGT" }

/-- First mate of read identity "A". -/
def testRecA1 : Rec := testRec "A" true

/-- Second mate of read identity "A". -/
def testRecA2 : Rec := testRec "A" false

/-- First mate of read identity "B". -/
def testRecB1 : Rec := testRec "B" true

/-- Second mate of read identity "B". -/
def testRecB2 : Rec := testRec "B" false

/-- C3 is violated by the code: when the underlying record stream runs out
while the current group is being collected — which is how every stream ends,
there being no sentinel — `__next__` propagates `StopIteration` without
returning the collected group, so the file's final group is never delivered.
Here the two-record stream delivers nothing, and the four-record stream
delivers only the first group. -/
theorem bamReader_final_group_lost :
    bamGroups [testRecA1, testRecA2] = [] ∧
    bamGroups [testRecA1, testRecA2, testRecB1, testRecB2] =
      [("A", [testRecA1], [testRecA2])] := by
  constructor <;> rfl

/-! ## `Hist` — per-position base-composition histograms

`Hist.hists[read][side]` is a dict with exactly the keys A, C, G, T, N, each
holding a counter list of length `n_bases`.  `add_reads` walks the first
`n_bases` bases of each mate's sequence forward (`side = 0`) and reversed
(`side = 1`); `enumerate_range` ends at `n_bases` or at sequence exhaustion,
and a base outside the five dict keys raises `KeyError` (modelled `none`). -/

/-- The `nuc` tuple. -/
def nucChars : List Char := ['A', 'C', 'G', 'T', 'N']

/-- One `[base][position]` dict: keys A, C, G, T, N only. -/
structure HistSide where
  a : List Nat
  c : List Nat
  g : List Nat
  t : List Nat
  n : List Nat
deriving DecidableEq

/-- Counter update `lst[i] += 1` (out-of-range indices leave the list unchanged; the source
never indexes out of range because `i < n_bases = len(lst)`). -/
def inc : List Nat → Nat → List Nat
  | [], _ => []
  | x :: xs, 0 => (x + 1) :: xs
  | x :: xs, i + 1 => x :: inc xs i

/-- Dict lookup `hist[side][b]`; `none` is Python's `KeyError`. -/
def getKey (hs : HistSide) (ch : Char) : Option (List Nat) :=
  if ch = 'A' then some hs.a
  else if ch = 'C' then some hs.c
  else if ch = 'G' then some hs.g
  else if ch = 'T' then some hs.t
  else if ch = 'N' then some hs.n
  else none

/-- Dict store back into the matching key. -/
def setKey (hs : HistSide) (ch : Char) (l : List Nat) : HistSide :=
  if ch = 'A' then { hs with a := l }
  else if ch = 'C' then { hs with c := l }
  else if ch = 'G' then { hs with g := l }
  else if ch = 'T' then { hs with t := l }
  else if ch = 'N' then { hs with n := l }
  else hs

/-- The loop `for i, b in enumerate_range(seq, 0, n_bases): hist[b][i] += 1`. -/
def addSeqSide (nb : Nat) : Nat → HistSide → List Char → Option HistSide
  | _, hs, [] => some hs
  | i, hs, ch :: rest =>
    if i < nb then
      match getKey hs ch with
      | none => none
      | some l => addSeqSide nb (i + 1) (setKey hs ch (inc l i)) rest
    else some hs

/-- The per-program histogram bundle: `hists[read][side]` for two mates and
two traversal directions. -/
structure Hist where
  prog : String
  nBases : Nat
  r1s0 : HistSide
  r1s1 : HistSide
  r2s0 : HistSide
  r2s1 : HistSide
deriving DecidableEq

/-- The dict `dict((base, [0] * n_bases) for base in ('A','C','G','T','N'))`. -/
def initSide (nb : Nat) : HistSide :=
  { a := List.replicate nb 0, c := List.replicate nb 0, g := List.replicate nb 0,
    t := List.replicate nb 0, n := List.replicate nb 0 }

/-- Constructor `Hist.__init__`. -/
def initHist (prog : String) (nb : Nat) : Hist :=
  { prog := prog, nBases := nb, r1s0 := initSide nb, r1s1 := initSide nb,
    r2s0 := initSide nb, r2s1 := initSide nb }

/-- Method `Hist.add_reads(r1, r2)` on the two query sequences. -/
def Hist.addReads (h : Hist) (s1 s2 : List Char) : Option Hist :=
  match addSeqSide h.nBases 0 h.r1s0 s1 with
  | none => none
  | some x1 =>
    match addSeqSide h.nBases 0 h.r1s1 s1.reverse with
    | none => none
    | some y1 =>
      match addSeqSide h.nBases 0 h.r2s0 s2 with
      | none => none
      | some x2 =>
        match addSeqSide h.nBases 0 h.r2s1 s2.reverse with
        | none => none
        | some y2 => some { h with r1s0 := x1, r1s1 := y1, r2s0 := x2, r2s1 := y2 }

/-- Feed a whole run of accepted read pairs into one histogram. -/
def addAll (h : Hist) : List (List Char × List Char) → Option Hist
  | [] => some h
  | (s1, s2) :: rest =>
    match h.addReads s1 s2 with
    | none => none
    | some h1 => addAll h1 rest

/-- Sum of the five base counters at one position. -/
def sumAt (hs : HistSide) (i : Nat) : Nat :=
  hs.a.getD i 0 + hs.c.getD i 0 + hs.g.getD i 0 + hs.t.getD i 0 + hs.n.getD i 0

/-- Select `hists[read][side]`: `mate = false` is read 1, `side = false` the
5-prime-to-3-prime direction. -/
def mateSide (h : Hist) (mate side : Bool) : HistSide :=
  match mate, side with
  | false, false => h.r1s0
  | false, true => h.r1s1
  | true, false => h.r2s0
  | true, true => h.r2s1

/-- All five counter lists have the configured length. -/
def sideWF (nb : Nat) (hs : HistSide) : Prop :=
  hs.a.length = nb ∧ hs.c.length = nb ∧ hs.g.length = nb ∧ hs.t.length = nb ∧ hs.n.length = nb

/-- All four sides well-formed. -/
def histWF (h : Hist) : Prop :=
  sideWF h.nBases h.r1s0 ∧ sideWF h.nBases h.r1s1 ∧
    sideWF h.nBases h.r2s0 ∧ sideWF h.nBases h.r2s1

theorem inc_length (l : List Nat) : ∀ i, (inc l i).length = l.length := by
  induction l with
  | nil => intro i; rfl
  | cons x xs ih => intro i; cases i with
    | zero => rfl
    | succ i => simp [inc, ih]

theorem inc_getD_self (l : List Nat) : ∀ i, i < l.length →
    (inc l i).getD i 0 = l.getD i 0 + 1 := by
  induction l with
  | nil => intro i h; simp at h
  | cons x xs ih =>
    intro i h
    cases i with
    | zero => rfl
    | succ i => simpa [inc] using ih i (by simpa using h)

theorem inc_getD_ne (l : List Nat) : ∀ i j, j ≠ i →
    (inc l i).getD j 0 = l.getD j 0 := by
  induction l with
  | nil => intro i j _; simp [inc]
  | cons x xs ih =>
    intro i j hne
    cases i with
    | zero =>
      cases j with
      | zero => exact absurd rfl hne
      | succ j => simp [inc]
    | succ i =>
      cases j with
      | zero => simp [inc]
      | succ j => simpa [inc] using ih i j (by omega)

theorem getKey_A (hs : HistSide) : getKey hs 'A' = some hs.a := rfl

theorem getKey_C (hs : HistSide) : getKey hs 'C' = some hs.c := rfl

theorem getKey_G (hs : HistSide) : getKey hs 'G' = some hs.g := rfl

theorem getKey_T (hs : HistSide) : getKey hs 'T' = some hs.t := rfl

theorem getKey_N (hs : HistSide) : getKey hs 'N' = some hs.n := rfl

theorem setKey_A (hs : HistSide) (l : List Nat) : setKey hs 'A' l = { hs with a := l } := rfl

theorem setKey_C (hs : HistSide) (l : List Nat) : setKey hs 'C' l = { hs with c := l } := rfl

theorem setKey_G (hs : HistSide) (l : List Nat) : setKey hs 'G' l = { hs with g := l } := rfl

theorem setKey_T (hs : HistSide) (l : List Nat) : setKey hs 'T' l = { hs with t := l } := rfl

theorem setKey_N (hs : HistSide) (l : List Nat) : setKey hs 'N' l = { hs with n := l } := rfl

theorem mem_nucChars {ch : Char} (hch : ch ∈ nucChars) :
    ch = 'A' ∨ ch = 'C' ∨ ch = 'G' ∨ ch = 'T' ∨ ch = 'N' := by
  simpa [nucChars] using hch

theorem getKey_of_mem (nb : Nat) (hs : HistSide) (ch : Char)
    (hch : ch ∈ nucChars) (hwf : sideWF nb hs) :
    ∃ l, getKey hs ch = some l ∧ l.length = nb := by
  rcases mem_nucChars hch with rfl | rfl | rfl | rfl | rfl
  · exact ⟨hs.a, getKey_A hs, hwf.1⟩
  · exact ⟨hs.c, getKey_C hs, hwf.2.1⟩
  · exact ⟨hs.g, getKey_G hs, hwf.2.2.1⟩
  · exact ⟨hs.t, getKey_T hs, hwf.2.2.2.1⟩
  · exact ⟨hs.n, getKey_N hs, hwf.2.2.2.2⟩

theorem setKey_inc_wf (nb : Nat) (hs : HistSide) (ch : Char) (l : List Nat) (i : Nat)
    (hch : ch ∈ nucChars) (hget : getKey hs ch = some l) (hwf : sideWF nb hs) :
    sideWF nb (setKey hs ch (inc l i)) := by
  obtain ⟨w1, w2, w3, w4, w5⟩ := hwf
  rcases mem_nucChars hch with rfl | rfl | rfl | rfl | rfl
  · rw [getKey_A] at hget
    obtain rfl := Option.some.inj hget
    rw [setKey_A]
    exact ⟨by rw [inc_length]; exact w1, w2, w3, w4, w5⟩
  · rw [getKey_C] at hget
    obtain rfl := Option.some.inj hget
    rw [setKey_C]
    exact ⟨w1, by rw [inc_length]; exact w2, w3, w4, w5⟩
  · rw [getKey_G] at hget
    obtain rfl := Option.some.inj hget
    rw [setKey_G]
    exact ⟨w1, w2, by rw [inc_length]; exact w3, w4, w5⟩
  · rw [getKey_T] at hget
    obtain rfl := Option.some.inj hget
    rw [setKey_T]
    exact ⟨w1, w2, w3, by rw [inc_length]; exact w4, w5⟩
  · rw [getKey_N] at hget
    obtain rfl := Option.some.inj hget
    rw [setKey_N]
    exact ⟨w1, w2, w3, w4, by rw [inc_length]; exact w5⟩

theorem sumAt_setKey_inc (hs : HistSide) (ch : Char) (l : List Nat) (i j : Nat)
    (hch : ch ∈ nucChars) (hget : getKey hs ch = some l) (hil : i < l.length) :
    sumAt (setKey hs ch (inc l i)) j = sumAt hs j + (if j = i then 1 else 0) := by
  have hkey : ∀ l0 : List Nat, l0 = l →
      (inc l i).getD j 0 = l0.getD j 0 + (if j = i then 1 else 0) := by
    intro l0 h0
    rw [h0]
    by_cases hji : j = i
    · subst hji
      rw [inc_getD_self l j hil]
      simp
    · rw [inc_getD_ne l i j hji]
      simp [hji]
  rcases mem_nucChars hch with rfl | rfl | rfl | rfl | rfl
  · rw [getKey_A] at hget
    rw [setKey_A]
    simp only [sumAt]
    rw [hkey hs.a (Option.some.inj hget)]
    omega
  · rw [getKey_C] at hget
    rw [setKey_C]
    simp only [sumAt]
    rw [hkey hs.c (Option.some.inj hget)]
    omega
  · rw [getKey_G] at hget
    rw [setKey_G]
    simp only [sumAt]
    rw [hkey hs.g (Option.some.inj hget)]
    omega
  · rw [getKey_T] at hget
    rw [setKey_T]
    simp only [sumAt]
    rw [hkey hs.t (Option.some.inj hget)]
    omega
  · rw [getKey_N] at hget
    rw [setKey_N]
    simp only [sumAt]
    rw [hkey hs.n (Option.some.inj hget)]
    omega

theorem addSeqSide_spec (nb : Nat) :
    ∀ (s : List Char) (i0 : Nat) (hs : HistSide),
      sideWF nb hs → (∀ ch ∈ s, ch ∈ nucChars) →
      ∃ hs', addSeqSide nb i0 hs s = some hs' ∧ sideWF nb hs' ∧
        ∀ j, j < nb →
          sumAt hs' j = sumAt hs j + (if i0 ≤ j ∧ j < i0 + s.length then 1 else 0) := by
  intro s
  induction s with
  | nil =>
    intro i0 hs hwf _
    refine ⟨hs, rfl, hwf, fun j hj => ?_⟩
    have hne : ¬(i0 ≤ j ∧ j < i0 + ([] : List Char).length) := by
      simp only [List.length_nil]
      omega
    rw [if_neg hne]
    omega
  | cons ch rest ih =>
    intro i0 hs hwf hchars
    by_cases hi : i0 < nb
    · have hch : ch ∈ nucChars := hchars ch (by simp)
      obtain ⟨l, hget, hlen⟩ := getKey_of_mem nb hs ch hch hwf
      have hwf' := setKey_inc_wf nb hs ch l i0 hch hget hwf
      obtain ⟨hs', heq, hwf2, hsum⟩ := ih (i0 + 1) _ hwf' (fun c hc => hchars c (by simp [hc]))
      refine ⟨hs', ?_, hwf2, fun j hj => ?_⟩
      · simp only [addSeqSide, if_pos hi, hget]
        exact heq
      · rw [hsum j hj, sumAt_setKey_inc hs ch l i0 j hch hget (by omega)]
        simp only [List.length_cons]
        split_ifs <;> omega
    · refine ⟨hs, ?_, hwf, fun j hj => ?_⟩
      · rw [addSeqSide, if_neg hi]
      · have hne : ¬(i0 ≤ j ∧ j < i0 + (ch :: rest).length) := by omega
        rw [if_neg hne]
        omega

theorem addReads_spec (h : Hist) (s1 s2 : List Char)
    (hwf : histWF h) (h1 : ∀ ch ∈ s1, ch ∈ nucChars) (h2 : ∀ ch ∈ s2, ch ∈ nucChars) :
    ∃ h', h.addReads s1 s2 = some h' ∧ h'.prog = h.prog ∧ h'.nBases = h.nBases ∧ histWF h' ∧
      ∀ (mate side : Bool) (j : Nat), j < h.nBases →
        sumAt (mateSide h' mate side) j =
          sumAt (mateSide h mate side) j + (if j < (cond mate s2 s1).length then 1 else 0) := by
  obtain ⟨w1, w2, w3, w4⟩ := hwf
  have h1r : ∀ ch ∈ s1.reverse, ch ∈ nucChars := fun ch hc => h1 ch (List.mem_reverse.mp hc)
  have h2r : ∀ ch ∈ s2.reverse, ch ∈ nucChars := fun ch hc => h2 ch (List.mem_reverse.mp hc)
  obtain ⟨x1, e1, f1, g1⟩ := addSeqSide_spec h.nBases s1 0 h.r1s0 w1 h1
  obtain ⟨y1, e2, f2, g2⟩ := addSeqSide_spec h.nBases s1.reverse 0 h.r1s1 w2 h1r
  obtain ⟨x2, e3, f3, g3⟩ := addSeqSide_spec h.nBases s2 0 h.r2s0 w3 h2
  obtain ⟨y2, e4, f4, g4⟩ := addSeqSide_spec h.nBases s2.reverse 0 h.r2s1 w4 h2r
  refine ⟨{ h with r1s0 := x1, r1s1 := y1, r2s0 := x2, r2s1 := y2 }, ?_, rfl, rfl,
    ⟨f1, f2, f3, f4⟩, ?_⟩
  · simp only [Hist.addReads, e1, e2, e3, e4]
  · intro mate side j hj
    cases mate <;> cases side <;> simp only [mateSide, cond]
    · rw [g1 j hj]
      split_ifs <;> omega
    · rw [g2 j hj]
      simp only [List.length_reverse]
      split_ifs <;> omega
    · rw [g3 j hj]
      split_ifs <;> omega
    · rw [g4 j hj]
      simp only [List.length_reverse]
      split_ifs <;> omega

theorem addAll_spec : ∀ (pairs : List (List Char × List Char)) (h : Hist),
    histWF h →
    (∀ pr ∈ pairs, (∀ ch ∈ pr.1, ch ∈ nucChars) ∧ (∀ ch ∈ pr.2, ch ∈ nucChars)) →
    ∃ h', addAll h pairs = some h' ∧ h'.prog = h.prog ∧ h'.nBases = h.nBases ∧ histWF h' ∧
      ∀ (mate side : Bool) (j : Nat), j < h.nBases →
        sumAt (mateSide h' mate side) j =
          sumAt (mateSide h mate side) j +
            (pairs.filter (fun pr => j < (cond mate pr.2 pr.1).length)).length := by
  intro pairs
  induction pairs with
  | nil =>
    intro h hwf _
    exact ⟨h, rfl, rfl, rfl, hwf, fun mate side j hj => by simp⟩
  | cons pr rest ih =>
    intro h hwf hchars
    obtain ⟨hc1, hc2⟩ := hchars pr (by simp)
    obtain ⟨h1, e1, ep1, en1, f1, g1⟩ := addReads_spec h pr.1 pr.2 hwf hc1 hc2
    obtain ⟨h', e2, ep2, en2, f2, g2⟩ := ih h1 f1 (fun q hq => hchars q (by simp [hq]))
    refine ⟨h', ?_, by rw [ep2, ep1], by rw [en2, en1], f2, ?_⟩
    · simp only [addAll, e1]
      exact e2
    · intro mate side j hj
      rw [g2 mate side j (by rw [en1]; exact hj), g1 mate side j hj]
      simp only [List.filter_cons]
      by_cases hcond : j < (cond mate pr.2 pr.1).length
      · simp [hcond] <;> omega
      · simp [hcond] <;> omega

theorem replicate_getD : ∀ (nb j : Nat), (List.replicate nb (0 : Nat)).getD j 0 = 0 := by
  intro nb
  induction nb with
  | zero => intro j; simp
  | succ nb ih =>
    intro j
    cases j with
    | zero => simp [List.replicate]
    | succ j => simpa [List.replicate] using ih j

/-- C8: after feeding any run of accepted read pairs (sequences over the five
base symbols) into a fresh histogram, the sum of the A/C/G/T/N counts at
1-based position `p ≤ n_bases`, for either mate and either traversal
direction, equals the number of accepted pairs whose corresponding mate
sequence has length at least `p`. -/
theorem hist_sum_counts (prog : String) (nb : Nat) (pairs : List (List Char × List Char))
    (p : Nat) (mate side : Bool)
    (hchars : ∀ pr ∈ pairs, (∀ ch ∈ pr.1, ch ∈ nucChars) ∧ (∀ ch ∈ pr.2, ch ∈ nucChars))
    (hp1 : 1 ≤ p) (hpn : p ≤ nb) :
    ∃ h', addAll (initHist prog nb) pairs = some h' ∧
      sumAt (mateSide h' mate side) (p - 1) =
        (pairs.filter (fun pr => p ≤ (cond mate pr.2 pr.1).length)).length := by
  have hwf0 : histWF (initHist prog nb) := by
    refine ⟨?_, ?_, ?_, ?_⟩ <;>
      exact ⟨by simp [initHist, initSide], by simp [initHist, initSide],
        by simp [initHist, initSide], by simp [initHist, initSide],
        by simp [initHist, initSide]⟩
  obtain ⟨h', e, _, en, _, g⟩ := addAll_spec pairs (initHist prog nb) hwf0 hchars
  refine ⟨h', e, ?_⟩
  have hjn : p - 1 < (initHist prog nb).nBases := by
    simp only [initHist]
    omega
  rw [g mate side (p - 1) hjn]
  have hzero : sumAt (mateSide (initHist prog nb) mate side) (p - 1) = 0 := by
    cases mate <;> cases side <;>
      simp [initHist, initSide, mateSide, sumAt, replicate_getD]
  rw [hzero]
  have hfeq : pairs.filter (fun pr => decide (p - 1 < (cond mate pr.2 pr.1).length))
      = pairs.filter (fun pr => decide (p ≤ (cond mate pr.2 pr.1).length)) := by
    apply List.filter_congr
    intro pr _
    rw [decide_eq_decide]
    omega
  rw [hfeq]
  omega

/-- Witness for C8: one pair ("ACGT", "GG"), window 4, position 3, mate 1,
forward direction: only the length-4 mate reaches position 3. -/
theorem hist_sum_counts_witness :
    ((∀ pr ∈ ([(String.toList "ACGT", String.toList "GG")] : List (List Char × List Char)),
        (∀ ch ∈ pr.1, ch ∈ nucChars) ∧ (∀ ch ∈ pr.2, ch ∈ nucChars)) ∧
      1 ≤ 3 ∧ 3 ≤ 4) ∧
    ∃ h', addAll (initHist "untrimmed" 4) [(String.toList "ACGT", String.toList "GG")] = some h' ∧
      sumAt (mateSide h' false false) (3 - 1) =
        (([(String.toList "ACGT", String.toList "GG")] : List (List Char × List Char)).filter
          (fun pr => 3 ≤ (cond false pr.2 pr.1).length)).length :=
  ⟨⟨by decide, by decide, by decide⟩,
    hist_sum_counts "untrimmed" 4 _ 3 false false (by decide) (by decide) (by decide)⟩

/-! ## `TableRead` / `TableRow` -/

/-- Per-mate summary (`read_fields` defaults).  The source's `chrm` default is
the integer `-1`, overwritten by the reference name when mapped; rendered here
as `none` vs `some name`. -/
structure TableRead where
  mapped : Bool := false
  quality : Int := -1
  chrm : Option String := none
  start : Int := -1
  stop : Int := -1
  clippedFront : Int := -1
  clippedBack : Int := -1
  trimmedFront : Int := 0
  trimmedBack : Int := 0
  inRegion : Int := -1
deriving DecidableEq

/-- Python truthiness of one reference position: `None` and `0` are falsy. -/
def posFalsy : Option Int → Bool
  | none => true
  | some v => v = 0

/-- Helper `count_soft_clipped`: leading falsy positions. -/
def countSoftClipped : List (Option Int) → Nat
  | [] => 0
  | p :: rest => if posFalsy p then countSoftClipped rest + 1 else 0

/-- Method `TableRead.set_from_read`. -/
def setFromRead (tr : TableRead) (r : Rec) : TableRead :=
  let tr1 := { tr with mapped := !r.isUnmapped, quality := r.mappingQuality }
  if !r.isUnmapped then
    { tr1 with
      chrm := some r.referenceName,
      start := r.referenceStart,
      stop := r.referenceEnd,
      clippedFront := (countSoftClipped r.refPositions : Int),
      clippedBack := (countSoftClipped r.refPositions.reverse : Int) }
  else tr1

/-- One output row (`pair_fields` defaults plus the two mate summaries). -/
structure TableRow where
  prog : String
  readName : String
  readIdx : Nat
  failed : Bool := false
  discarded : Bool := false
  split : Bool := false
  skipped : Bool := false
  proper : Bool := false
  valid : Bool := false
  read1 : TableRead := {}
  read2 : TableRead := {}
deriving DecidableEq

/-- Constructor `TableRow.__init__`. -/
def mkRow (prog name : String) (idx : Nat) : TableRow :=
  { prog := prog, readName := name, readIdx := idx }

/-- Runtime failures of `summarize`: the two `assert len(..) > 0` checks, the
`assert r1.is_proper_pair == r2.is_proper_pair` in `set_from_pair`, and the
histogram dict `KeyError`. -/
inductive Err
  | emptyBaseline
  | emptyTrimmed
  | properMismatch
  | keyError
deriving DecidableEq

/-- Method `TableRow.set_from_pair`. -/
def setFromPair (row : TableRow) (r1 r2 : Rec) : Except Err TableRow :=
  if r1.isProperPair = r2.isProperPair then
    .ok { row with
      proper := r1.isProperPair,
      valid := r1.isProperPair && (r1.isReverse != r2.isReverse),
      read1 := setFromRead row.read1 r1,
      read2 := setFromRead row.read2 r2 }
  else .error .properMismatch

/-- The call `row.readK.set_trimming(u, r, use_edit_distance)`. -/
def setTrimmingRead (tr : TableRead) (u r : Rec) (useEd : Bool) : TableRead :=
  { tr with
    trimmedFront := (setTrimming u.querySequence r.querySequence useEd).1,
    trimmedBack := (setTrimming u.querySequence r.querySequence useEd).2 }

/-! ## `Bed` — region overlap (`C7`) -/

/-- A genomic interval. -/
structure BedInterval where
  chrm : String
  start : Int
  stop : Int
deriving DecidableEq

/-- Modelled from the spec: the genomic interval overlap lookup
(pybedtools `all_hits`) is an external collaborator, "given a region, returns
overlapping annotated intervals"; two intervals overlap when they share a
chromosome and intersect. -/
def allHits (regions : List BedInterval) (i : BedInterval) : List BedInterval :=
  regions.filter (fun h => h.chrm = i.chrm && h.start < i.stop && i.start < h.stop)

/-- Helper `_overlap(h)` inside `Bed.overlaps`. -/
def overlapLen (i h : BedInterval) : Int :=
  if h.start < i.start then h.stop - i.start else i.stop - h.start

/-- What `Bed.overlaps` actually produces. -/
inductive OverlapsResult
  | noHit
  | sortError
  | hit (h : BedInterval)
deriving DecidableEq

/-- Method `Bed.overlaps`: builds the 0-based query interval (`start-1`), collects
hits, and — though it computes the `(i, h, _overlap(h))` triples — returns
`hits[0]`, the bare hit interval.  With more than one hit the source first
calls `overlaps.sort(key=..., reversed=True)`, which raises `TypeError`
(`list.sort` has no `reversed` keyword), modelled as `sortError`. -/
def bedOverlaps (regions : List BedInterval) (chrm : String) (start stop : Int) : OverlapsResult :=
  let i : BedInterval := ⟨chrm, start - 1, stop⟩
  match allHits regions i with
  | [] => .noHit
  | [h] => .hit h
  | _ :: _ :: _ => .sortError

/-- Method `TableRead.set_region`.  The caller unpacks the lookup result as
`read, region, overlap = best_hit`; since `Bed.overlaps` returns the bare hit
`BedInterval`, the unpack yields its three string fields and
`overlap / len(read)` divides a string by an integer — a `TypeError`,
modelled as `none` (the run aborts before `in_region` can be set to 1). -/
def setRegion (tr : TableRead) (regions : List BedInterval) (minOverlap : Rat) : Option TableRead :=
  if tr.mapped then
    let tr1 := { tr with inRegion := 0 }
    match bedOverlaps regions (tr.chrm.getD "") tr.start tr.stop with
    | .noHit => some tr1
    | .sortError => none
    | .hit _ => none
  else some tr

/-- A mapped per-mate summary, as `set_from_read` leaves it for a read mapped
to chr1:[100,150). -/
def mappedRead : TableRead :=
  { mapped := true, quality := 60, chrm := some "chr1", start := 100, stop := 150 }

/-- C7 is violated by the code on its first half: for a mapped interval fully
contained in the single padded annotation interval chr1:[0,1000) the run
raises `TypeError` (modelled `none`) instead of setting `in_region = 1`,
because `Bed.overlaps` returns the bare hit instead of the computed
`(read, region, overlap)` triple; with two containing hits the
`sort(..., reversed=True)` call raises first.  The second half holds on these
inputs: with no overlapping annotation interval, `in_region` stays 0. -/
theorem setRegion_containment_crash :
    setRegion mappedRead [⟨"chr1", 0, 1000⟩] 1 = none ∧
    setRegion mappedRead [⟨"chr1", 0, 1000⟩, ⟨"chr1", 50, 500⟩] 1 = none ∧
    setRegion mappedRead [⟨"chr2", 0, 1000⟩] 1 = some { mappedRead with inRegion := 0 } ∧
    setRegion mappedRead [] 1 = some { mappedRead with inRegion := 0 } := by
  exact ⟨rfl, rfl, rfl, rfl⟩

/-! ## `summarize` — the multi-stream synchronization engine

State passed through the per-identity loop: the per-program trimmed streams
(in `trimmed.items()` insertion order, each holding its not-yet-consumed
groups — `bam.finished`/`bam.peek()` exist only on the reader used by this
script, so their behaviour is modelled from the spec: the front group of a
stream is visible without consuming it, and a stream with no groups left is
finished), the per-program histograms, and the rows written so far. -/

/-- Per-program trimmed streams. -/
abbrev Streams : Type := List (String × List ReadGroup)

/-- Per-program histograms. -/
abbrev Hists : Type := List (String × Hist)

/-- Outcome of classifying the baseline group (`summarize` lines 212-223):
split, quality-failed, or usable with the two singleton mates. -/
inductive BOut
  | bsplit (rowU : TableRow)
  | bfail (rowU : TableRow)
  | bok (u1 u2 : Rec) (rowU : TableRow)

/-- The loop's `skip` flag after baseline classification. -/
def skipOf : BOut → Bool
  | .bok _ _ _ => false
  | _ => true

/-- The loop's `fail` flag after baseline classification. -/
def failOf : BOut → Bool
  | .bfail _ => true
  | _ => false

/-- The call `hists[prog].add_reads(r1, r2)` on the keyed histogram table. -/
def addHistM : Hists → String → Rec → Rec → Except Err Hists
  | [], _, _, _ => .ok []
  | (p, h) :: rest, prog, r1, r2 =>
    if p = prog then
      match h.addReads r1.querySequence r2.querySequence with
      | none => .error .keyError
      | some h1 => .ok ((p, h1) :: rest)
    else
      Except.bind (addHistM rest prog r1 r2) (fun rest1 => .ok ((p, h) :: rest1))

/-- Baseline-group classification (`summarize` lines 204-223): the
`assert len(u1) > 0 and len(u2) > 0`, the split check, the qcfail check, and
otherwise the histogram update plus `set_from_pair` on the untrimmed row. -/
def baseClassify (idx : Nat) (name : String) (u1 u2 : List Rec) (hists : Hists) :
    Except Err (BOut × Hists) :=
  if u1 = [] ∨ u2 = [] then .error .emptyBaseline
  else
    let rowU := mkRow "untrimmed" name idx
    if u1.length > 1 ∨ u2.length > 1 then .ok (.bsplit { rowU with split := true }, hists)
    else
      match u1, u2 with
      | a :: _, b :: _ =>
        if a.isQcfail || b.isQcfail then .ok (.bfail { rowU with failed := true }, hists)
        else
          Except.bind (addHistM hists "untrimmed" a b) (fun hists1 =>
            Except.bind (setFromPair rowU a b) (fun rowU1 =>
              .ok (.bok a b rowU1, hists1)))
      | _, _ => .error .emptyBaseline

/-- The `for prog, bam in trimmed.items()` loop (`summarize` lines 225-242):
one fresh row per program (skip/fail propagated from the baseline), consuming
the stream's front group when its identity matches, recording `split` or
collecting the pair into `valid`, and `discarded` otherwise.  Returns the
per-program rows, the advanced streams, the updated histograms and the
`valid` collection, all in program order. -/
def progLoop (name : String) (idx : Nat) (skip fail : Bool) :
    Streams → Hists →
    Except Err (List (String × TableRow) × Streams × Hists × List (String × Rec × Rec))
  | [], hists => .ok ([], [], hists, [])
  | (prog, bam) :: streams, hists =>
    let row0 := mkRow prog name idx
    let row1 := if skip then { row0 with skipped := true, failed := fail } else row0
    match bam with
    | (gname, t1, t2) :: bamRest =>
      if gname = name then
        if t1 = [] ∨ t2 = [] then .error .emptyTrimmed
        else if t1.length > 1 ∨ t2.length > 1 then
          Except.bind (progLoop name idx skip fail streams hists) (fun q =>
            .ok ((prog, { row1 with split := true }) :: q.1,
              (prog, bamRest) :: q.2.1, q.2.2.1, q.2.2.2))
        else
          match t1, t2 with
          | a :: _, b :: _ =>
            if skip then
              Except.bind (progLoop name idx skip fail streams hists) (fun q =>
                .ok ((prog, row1) :: q.1, (prog, bamRest) :: q.2.1, q.2.2.1, q.2.2.2))
            else
              Except.bind (addHistM hists prog a b) (fun hists1 =>
                Except.bind (progLoop name idx skip fail streams hists1) (fun q =>
                  .ok ((prog, row1) :: q.1, (prog, bamRest) :: q.2.1, q.2.2.1,
                    (prog, a, b) :: q.2.2.2)))
          | _, _ => .error .emptyTrimmed
      else
        Except.bind (progLoop name idx skip fail streams hists) (fun q =>
          .ok ((prog, { row1 with discarded := true }) :: q.1,
            (prog, bam) :: q.2.1, q.2.2.1, q.2.2.2))
    | [] =>
      Except.bind (progLoop name idx skip fail streams hists) (fun q =>
        .ok ((prog, { row1 with discarded := true }) :: q.1,
          (prog, ([] : List ReadGroup)) :: q.2.1, q.2.2.1, q.2.2.2))

/-- The `rows[prog]` update (`rows` is a dict keyed by program name). -/
def updateRowM (f : TableRow → Except Err TableRow) (prog : String) :
    List (String × TableRow) → Except Err (List (String × TableRow))
  | [] => .ok []
  | (p, r) :: rest =>
    if p = prog then
      Except.bind (f r) (fun r1 => .ok ((p, r1) :: rest))
    else
      Except.bind (updateRowM f prog rest) (fun rest1 => .ok ((p, r) :: rest1))

/-- The `for prog, (r1, r2) in valid.items()` loop (`summarize` lines
247-251): `set_from_pair` plus trimming inference against the baseline
mates. -/
def applyValids (useEd : Bool) (a b : Rec) :
    List (String × TableRow) → List (String × Rec × Rec) →
    Except Err (List (String × TableRow))
  | rows, [] => .ok rows
  | rows, (prog, r1, r2) :: rest =>
    Except.bind (updateRowM (fun row =>
        Except.bind (setFromPair row r1 r2) (fun row1 => .ok { row1 with
            read1 := setTrimmingRead row1.read1 a r1 useEd,
            read2 := setTrimmingRead row1.read2 b r2 useEd })) prog rows)
      (fun rows1 => applyValids useEd a b rows1 rest)

/-- Tail of the synchronization step (`summarize` lines 244-254): `if skip or
len(valid) == 0` mark the untrimmed row skipped, else finish every valid
program pair, then emit the rows in `progs` order (untrimmed first, then
program insertion order). -/
def stepFinish (useEd : Bool) (bout : BOut) (rowsP : List (String × TableRow))
    (streams1 : Streams) (hists2 : Hists) (valids : List (String × Rec × Rec)) :
    Except Err (List TableRow × Streams × Hists) :=
  match bout with
  | .bok a b rowU =>
    if valids = [] then
      .ok ({ rowU with skipped := true } :: rowsP.map Prod.snd, streams1, hists2)
    else
      Except.bind (applyValids useEd a b rowsP valids)
        (fun rowsP1 => .ok (rowU :: rowsP1.map Prod.snd, streams1, hists2))
  | .bsplit rowU => .ok ({ rowU with skipped := true } :: rowsP.map Prod.snd, streams1, hists2)
  | .bfail rowU => .ok ({ rowU with skipped := true } :: rowsP.map Prod.snd, streams1, hists2)

/-- One full synchronization step for one baseline group (`summarize` loop
body): classify the baseline, run the program loop, then `stepFinish`. -/
def stepGroup (useEd : Bool) (idx : Nat) (g : ReadGroup) (streams : Streams) (hists : Hists) :
    Except Err (List TableRow × Streams × Hists) :=
  Except.bind (baseClassify idx g.1 g.2.1 g.2.2 hists) (fun p =>
    Except.bind (progLoop g.1 idx (skipOf p.1) (failOf p.1) streams p.2) (fun q =>
      stepFinish useEd p.1 q.1 q.2.1 q.2.2.1 q.2.2.2))

/-- The check `if max_reads and i >= max_reads: break` (a `max_reads` of 0 is falsy). -/
def stopAfter : Option Nat → Nat → Bool
  | none, _ => false
  | some mx, i => (mx != 0) && (mx ≤ i)

/-- The `for i, (name, u1, u2) in enumerate(untrimmed, 1)` loop. -/
def summarizeRun (useEd : Bool) (maxReads : Option Nat) :
    List ReadGroup → Nat → Streams → Hists → List TableRow →
    Except Err (List TableRow × Hists)
  | [], _, _, hists, acc => .ok (acc, hists)
  | g :: rest, i, streams, hists, acc =>
    Except.bind (stepGroup useEd i g streams hists) (fun r =>
      if stopAfter maxReads i then .ok (acc ++ r.1, r.2.2)
      else summarizeRun useEd maxReads rest (i + 1) r.2.1 r.2.2 (acc ++ r.1))

/-- Function `summarize(untrimmed, trimmed, ...)`: histograms for `('untrimmed',) +
tuple(trimmed.keys())`, then the enumerate loop from index 1. -/
def summarize (useEd : Bool) (maxReads : Option Nat) (nHistBases : Nat)
    (untrimmedGroups : List ReadGroup) (streams : Streams) :
    Except Err (List TableRow × Hists) :=
  summarizeRun useEd maxReads untrimmedGroups 1 streams
    (("untrimmed", initHist "untrimmed" nHistBases) ::
      streams.map (fun s => (s.1, initHist s.1 nHistBases))) []

/-- A quality-failed variant of `testRec`. -/
def qcRec (nm : String) (r1 : Bool) : Rec :=
  { testRec nm r1 with isQcfail := true }

/-- The `rows[prog]` lookup by program and read name in the written output. -/
def findRow (rows : List TableRow) (prog name : String) : Option TableRow :=
  rows.find? (fun r => r.prog = prog && r.readName = name)

/-- C1's scenario run through the engine: baseline {R1, R2} with R2
quality-failed, program P delivering only R1.  P's row for R2 carries
`skipped`, `failed` *and* `discarded` — the source sets `discarded = True`
whenever the stream's front does not match, even for skipped identities, so
`discarded = false` does not hold and the outcome states are not mutually
exclusive. -/
theorem prog_row_skipped_failed_also_discarded :
    ((summarize true none 4
        [("R1", [testRec "R1" true], [testRec "R1" false]),
         ("R2", [qcRec "R2" true], [testRec "R2" false])]
        [("P", [("R1", [testRec "R1" true], [testRec "R1" false])])]).toOption.bind
      (fun out => findRow out.1 "P" "R2")).map
        (fun r => (r.skipped, r.failed, r.discarded)) = some (true, true, true) := by
  rfl

theorem exbind_err {α β : Type} {x : Except Err α} {f : α → Except Err β} {e : Err}
    (h : Except.bind x f = .error e) :
    x = .error e ∨ ∃ a, x = .ok a ∧ f a = .error e := by
  cases x with
  | error e1 =>
    have he : e1 = e := Except.error.inj h
    exact Or.inl (by rw [he])
  | ok a => exact Or.inr ⟨a, rfl, h⟩

theorem exbind_ok {α β : Type} {x : Except Err α} {f : α → Except Err β} {b : β}
    (h : Except.bind x f = .ok b) : ∃ a, x = .ok a ∧ f a = .ok b := by
  cases x with
  | error e1 => exact Except.noConfusion h
  | ok a => exact ⟨a, rfl, h⟩

theorem exbind_ok_left {α β : Type} (a : α) (f : α → Except Err β) :
    Except.bind (Except.ok a) f = f a := rfl

theorem stepGroup_err {useEd : Bool} {idx : Nat} {g : ReadGroup} {streams : Streams}
    {hists : Hists} {e : Err}
    (hbc : baseClassify idx g.1 g.2.1 g.2.2 hists = .error e) :
    stepGroup useEd idx g streams hists = .error e := by
  unfold stepGroup
  rw [hbc]
  rfl

theorem stepGroup_eq {useEd : Bool} {idx : Nat} {g : ReadGroup} {streams : Streams}
    {hists : Hists} {bout : BOut} {hists1 : Hists} {rowsP : List (String × TableRow)}
    {streams1 : Streams} {hists2 : Hists} {valids : List (String × Rec × Rec)}
    (hbc : baseClassify idx g.1 g.2.1 g.2.2 hists = .ok (bout, hists1))
    (hpl : progLoop g.1 idx (skipOf bout) (failOf bout) streams hists1 =
      .ok (rowsP, streams1, hists2, valids)) :
    stepGroup useEd idx g streams hists = stepFinish useEd bout rowsP streams1 hists2 valids := by
  unfold stepGroup
  rw [hbc]
  show (Except.bind (progLoop g.1 idx (skipOf bout) (failOf bout) streams hists1) (fun q =>
    stepFinish useEd bout q.1 q.2.1 q.2.2.1 q.2.2.2)) = _
  rw [hpl]
  rfl

theorem stepGroup_err2 {useEd : Bool} {idx : Nat} {g : ReadGroup} {streams : Streams}
    {hists : Hists} {bout : BOut} {hists1 : Hists} {e : Err}
    (hbc : baseClassify idx g.1 g.2.1 g.2.2 hists = .ok (bout, hists1))
    (hpl : progLoop g.1 idx (skipOf bout) (failOf bout) streams hists1 = .error e) :
    stepGroup useEd idx g streams hists = .error e := by
  unfold stepGroup
  rw [hbc]
  show (Except.bind (progLoop g.1 idx (skipOf bout) (failOf bout) streams hists1) (fun q =>
    stepFinish useEd bout q.1 q.2.1 q.2.2.1 q.2.2.2)) = _
  rw [hpl]
  rfl

theorem setFromPair_fields {row : TableRow} {r1 r2 : Rec} {row1 : TableRow}
    (h : setFromPair row r1 r2 = .ok row1) :
    row1.prog = row.prog ∧ row1.readName = row.readName ∧ row1.failed = row.failed ∧
      row1.discarded = row.discarded ∧ row1.split = row.split ∧ row1.skipped = row.skipped := by
  rw [setFromPair] at h
  by_cases hpp : r1.isProperPair = r2.isProperPair
  · rw [if_pos hpp] at h
    cases h
    exact ⟨rfl, rfl, rfl, rfl, rfl, rfl⟩
  · rw [if_neg hpp] at h
    exact Except.noConfusion h

theorem setFromPair_err {row : TableRow} {r1 r2 : Rec} {e : Err}
    (h : setFromPair row r1 r2 = .error e) : e = .properMismatch := by
  rw [setFromPair] at h
  by_cases hpp : r1.isProperPair = r2.isProperPair
  · rw [if_pos hpp] at h
    exact Except.noConfusion h
  · rw [if_neg hpp] at h
    exact (Except.error.inj h).symm

/-- C2's counterexample run: the baseline pair at R1 has two first-mate
records, the first of them quality-failed; the untrimmed row comes out
`split = true, failed = false` — the qcfail check is never reached, so
`failed` does *not* take precedence over `split`. -/
theorem split_shadows_failed_counterexample :
    ((summarize true none 4
        [("R1", [qcRec "R1" true, testRec "R1" true], [testRec "R1" false])] []).toOption.bind
      (fun out => findRow out.1 "untrimmed" "R1")).map
        (fun r => (r.split, r.failed)) = some (true, false) := by
  rfl

/-- C2 amended: the precedence is the reverse of the claim's — the split
check comes first, and a split pair is marked `split` with `failed` left
false (the qcfail flags are never consulted); `failed` is set only when both
mate sub-lists are singletons. -/
theorem baseline_split_precedes_failed (useEd : Bool) (idx : Nat) (name : String)
    (u1 u2 : List Rec) (streams : Streams) (hists : Hists)
    (out : List TableRow × Streams × Hists)
    (h : stepGroup useEd idx (name, u1, u2) streams hists = .ok out) :
    ((u1.length > 1 ∨ u2.length > 1) →
      ∃ rest, out.1 =
        { mkRow "untrimmed" name idx with split := true, skipped := true } :: rest) ∧
    (∀ a b, u1 = [a] → u2 = [b] → (a.isQcfail || b.isQcfail) = true →
      ∃ rest, out.1 =
        { mkRow "untrimmed" name idx with failed := true, skipped := true } :: rest) := by
  constructor
  · intro hsplit
    by_cases hne : u1 = [] ∨ u2 = []
    · rw [stepGroup_err (e := .emptyBaseline) (by simp only [baseClassify, if_pos hne])] at h
      exact Except.noConfusion h
    · have hbc : baseClassify idx name u1 u2 hists =
          .ok (.bsplit { mkRow "untrimmed" name idx with split := true }, hists) := by
        simp only [baseClassify, if_neg hne, if_pos hsplit]
      cases hpl : progLoop name idx true false streams hists with
      | error e =>
        rw [stepGroup_err2 hbc hpl] at h
        exact Except.noConfusion h
      | ok q =>
        obtain ⟨rowsP, s1, h2, v⟩ := q
        rw [stepGroup_eq hbc hpl] at h
        rw [show stepFinish useEd (.bsplit { mkRow "untrimmed" name idx with split := true })
            rowsP s1 h2 v =
          .ok ({ mkRow "untrimmed" name idx with split := true, skipped := true }
            :: rowsP.map Prod.snd, s1, h2) from rfl] at h
        cases h
        exact ⟨rowsP.map Prod.snd, rfl⟩
  · intro a b ha hb hq
    subst ha
    subst hb
    have hbc : baseClassify idx name [a] [b] hists =
        .ok (.bfail { mkRow "untrimmed" name idx with failed := true }, hists) := by
      simp only [baseClassify]
      rw [if_neg (by simp), if_neg (by simp), if_pos hq]
    cases hpl : progLoop name idx true true streams hists with
    | error e =>
      rw [stepGroup_err2 hbc hpl] at h
      exact Except.noConfusion h
    | ok q =>
      obtain ⟨rowsP, s1, h2, v⟩ := q
      rw [stepGroup_eq hbc hpl] at h
      rw [show stepFinish useEd (.bfail { mkRow "untrimmed" name idx with failed := true })
          rowsP s1 h2 v =
        .ok ({ mkRow "untrimmed" name idx with failed := true, skipped := true }
          :: rowsP.map Prod.snd, s1, h2) from rfl] at h
      cases h
      exact ⟨rowsP.map Prod.snd, rfl⟩

/-- Witness for the amended C2 at a split baseline group. -/
theorem baseline_split_precedes_failed_witness :
    (stepGroup true 1 ("R1", [qcRec "R1" true, testRec "R1" true], [testRec "R1" false]) []
        [("untrimmed", initHist "untrimmed" 4)] =
      .ok ([{ mkRow "untrimmed" "R1" 1 with split := true, skipped := true }], [],
        [("untrimmed", initHist "untrimmed" 4)])) ∧
    ([qcRec "R1" true, testRec "R1" true].length > 1 ∨ [testRec "R1" false].length > 1) ∧
    (∃ rest, ([{ mkRow "untrimmed" "R1" 1 with split := true, skipped := true }] : List TableRow) =
      { mkRow "untrimmed" "R1" 1 with split := true, skipped := true } :: rest) :=
  ⟨rfl, by decide,
    (baseline_split_precedes_failed true 1 "R1"
      [qcRec "R1" true, testRec "R1" true] [testRec "R1" false] []
      [("untrimmed", initHist "untrimmed" 4)]
      ([{ mkRow "untrimmed" "R1" 1 with split := true, skipped := true }], [],
        [("untrimmed", initHist "untrimmed" 4)]) rfl).1 (by decide)⟩

/-- The front of a program's stream does not carry the current identity
(stream finished, or its next group belongs to a different read name). -/
def streamFrontMismatch (name : String) : List ReadGroup → Prop
  | [] => True
  | g :: _ => g.1 ≠ name

theorem progLoop_skip_rows (name : String) (idx : Nat) (fail : Bool) :
    ∀ (streams : Streams) (hists : Hists) rowsP s1 h2 v,
      progLoop name idx true fail streams hists = .ok (rowsP, s1, h2, v) →
      List.Forall₂ (fun (s : String × List ReadGroup) (pr : String × TableRow) =>
        pr.2.prog = s.1 ∧ pr.2.readName = name ∧ pr.2.skipped = true ∧
          pr.2.failed = fail ∧
          (streamFrontMismatch name s.2 → pr.2.discarded = true)) streams rowsP := by
  intro streams
  induction streams with
  | nil =>
    intro hists rowsP s1 h2 v h
    rw [progLoop] at h
    cases h
    exact List.Forall₂.nil
  | cons s streams ih =>
    obtain ⟨prog, bam⟩ := s
    intro hists rowsP s1 h2 v h
    cases bam with
    | nil =>
      simp only [progLoop] at h
      revert h
      cases hrec : progLoop name idx true fail streams hists with
      | error e => intro h; exact Except.noConfusion h
      | ok q =>
        obtain ⟨rows1, s2, h3, v1⟩ := q
        intro h
        cases h
        exact List.Forall₂.cons ⟨rfl, rfl, rfl, rfl, fun _ => rfl⟩ (ih _ _ _ _ _ hrec)
    | cons g bamRest =>
      obtain ⟨gname, t1, t2⟩ := g
      simp only [progLoop] at h
      by_cases hname : gname = name
      · simp only [if_pos hname] at h
        by_cases hemp : t1 = [] ∨ t2 = []
        · simp only [if_pos hemp] at h
          exact Except.noConfusion h
        · simp only [if_neg hemp] at h
          by_cases hlen : t1.length > 1 ∨ t2.length > 1
          · simp only [if_pos hlen] at h
            revert h
            cases hrec : progLoop name idx true fail streams hists with
            | error e => intro h; exact Except.noConfusion h
            | ok q =>
              obtain ⟨rows1, s2, h3, v1⟩ := q
              intro h
              cases h
              refine List.Forall₂.cons ⟨rfl, rfl, rfl, rfl, ?_⟩ (ih _ _ _ _ _ hrec)
              intro hmm
              exact absurd hname hmm
          · simp only [if_neg hlen] at h
            cases t1 with
            | nil => exact absurd (Or.inl rfl) hemp
            | cons a arest =>
              cases t2 with
              | nil => exact absurd (Or.inr rfl) hemp
              | cons b brest =>
                revert h
                cases hrec : progLoop name idx true fail streams hists with
                | error e => intro h; exact Except.noConfusion h
                | ok q =>
                  obtain ⟨rows1, s2, h3, v1⟩ := q
                  intro h
                  cases h
                  refine List.Forall₂.cons ⟨rfl, rfl, rfl, rfl, ?_⟩
                    (ih _ _ _ _ _ hrec)
                  intro hmm
                  exact absurd hname hmm
      · simp only [if_neg hname] at h
        revert h
        cases hrec : progLoop name idx true fail streams hists with
        | error e => intro h; exact Except.noConfusion h
        | ok q =>
          obtain ⟨rows1, s2, h3, v1⟩ := q
          intro h
          cases h
          exact List.Forall₂.cons ⟨rfl, rfl, rfl, rfl, fun _ => rfl⟩
            (ih _ _ _ _ _ hrec)

/-- C1 amended: when the baseline pair at an identity is quality-failed and a
program's stream front does not carry that identity, that program's row gets
`skipped = true` and `failed = true` *and also* `discarded = true` (the
source's `else: rows[prog].discarded = True` runs regardless of `skip`), so
the outcome states are not mutually exclusive. -/
theorem failed_baseline_prog_rows (useEd : Bool) (idx : Nat) (name : String)
    (a b : Rec) (streams : Streams) (hists : Hists) (out : List TableRow × Streams × Hists)
    (hq : (a.isQcfail || b.isQcfail) = true)
    (h : stepGroup useEd idx (name, [a], [b]) streams hists = .ok out) :
    List.Forall₂ (fun (s : String × List ReadGroup) (row : TableRow) =>
      row.prog = s.1 ∧ row.readName = name ∧ row.skipped = true ∧ row.failed = true ∧
        (streamFrontMismatch name s.2 → row.discarded = true)) streams out.1.tail := by
  have hbc : baseClassify idx name [a] [b] hists =
      .ok (.bfail { mkRow "untrimmed" name idx with failed := true }, hists) := by
    simp only [baseClassify]
    rw [if_neg (by simp), if_neg (by simp), if_pos hq]
  cases hpl : progLoop name idx true true streams hists with
  | error e =>
    rw [stepGroup_err2 hbc hpl] at h
    exact Except.noConfusion h
  | ok q =>
    obtain ⟨rowsP, s1, h2, v⟩ := q
    rw [stepGroup_eq hbc hpl] at h
    rw [show stepFinish useEd (.bfail { mkRow "untrimmed" name idx with failed := true })
        rowsP s1 h2 v =
      .ok ({ mkRow "untrimmed" name idx with failed := true, skipped := true }
        :: rowsP.map Prod.snd, s1, h2) from rfl] at h
    cases h
    exact List.forall₂_map_right_iff.mpr
      (progLoop_skip_rows name idx true streams hists rowsP s1 h2 v hpl)

/-- Witness for the amended C1: quality-failed baseline at R2, program P's
stream already exhausted. -/
theorem failed_baseline_prog_rows_witness :
    ((qcRec "R2" true).isQcfail || (testRec "R2" false).isQcfail) = true ∧
    List.Forall₂ (fun (s : String × List ReadGroup) (row : TableRow) =>
      row.prog = s.1 ∧ row.readName = "R2" ∧ row.skipped = true ∧ row.failed = true ∧
        (streamFrontMismatch "R2" s.2 → row.discarded = true)) [("P", [])]
      (([{ mkRow "untrimmed" "R2" 2 with failed := true, skipped := true },
         { mkRow "P" "R2" 2 with skipped := true, failed := true, discarded := true }] :
          List TableRow).tail) :=
  ⟨by decide,
    failed_baseline_prog_rows true 2 "R2" (qcRec "R2" true) (testRec "R2" false)
      [("P", [])] []
      ([{ mkRow "untrimmed" "R2" 2 with failed := true, skipped := true },
        { mkRow "P" "R2" 2 with skipped := true, failed := true, discarded := true }],
        [("P", [])], [])
      (by decide) rfl⟩

/-- A program stream offers nothing usable at this identity: it is finished,
its front group belongs to another identity, or that group is split. -/
def noUsable (name : String) : List ReadGroup → Prop
  | [] => True
  | g :: _ => g.1 ≠ name ∨ g.2.1.length > 1 ∨ g.2.2.length > 1

theorem progLoop_no_valid (name : String) (idx : Nat) (fail : Bool) :
    ∀ (streams : Streams) (hists : Hists) rowsP s1 h2 v,
      (∀ s ∈ streams, noUsable name s.2) →
      progLoop name idx false fail streams hists = .ok (rowsP, s1, h2, v) → v = [] := by
  intro streams
  induction streams with
  | nil =>
    intro hists rowsP s1 h2 v _ h
    rw [progLoop] at h
    cases h
    rfl
  | cons s streams ih =>
    obtain ⟨prog, bam⟩ := s
    intro hists rowsP s1 h2 v hns h
    have hrest : ∀ s ∈ streams, noUsable name s.2 := fun s hs => hns s (by simp [hs])
    cases bam with
    | nil =>
      simp only [progLoop] at h
      revert h
      cases hrec : progLoop name idx false fail streams hists with
      | error e => intro h; exact Except.noConfusion h
      | ok q =>
        obtain ⟨rows1, s2, h3, v1⟩ := q
        intro h
        cases h
        exact ih _ _ _ _ _ hrest hrec
    | cons g bamRest =>
      obtain ⟨gname, t1, t2⟩ := g
      have hnu : gname ≠ name ∨ t1.length > 1 ∨ t2.length > 1 := hns (prog, (gname, t1, t2) :: bamRest) (by simp)
      simp only [progLoop] at h
      by_cases hname : gname = name
      · have hlen : t1.length > 1 ∨ t2.length > 1 := by
          rcases hnu with hx | hx
          · exact absurd hname hx
          · exact hx
        simp only [if_pos hname] at h
        by_cases hemp : t1 = [] ∨ t2 = []
        · simp only [if_pos hemp] at h
          exact Except.noConfusion h
        · simp only [if_neg hemp, if_pos hlen] at h
          revert h
          cases hrec : progLoop name idx false fail streams hists with
          | error e => intro h; exact Except.noConfusion h
          | ok q =>
            obtain ⟨rows1, s2, h3, v1⟩ := q
            intro h
            cases h
            exact ih _ _ _ _ _ hrest hrec
      · simp only [if_neg hname] at h
        revert h
        cases hrec : progLoop name idx false fail streams hists with
        | error e => intro h; exact Except.noConfusion h
        | ok q =>
          obtain ⟨rows1, s2, h3, v1⟩ := q
          intro h
          cases h
          exact ih _ _ _ _ _ hrest hrec

/-- C9: a usable baseline pair (singleton mates, neither quality-failed)
whose programs all fail to contribute a consumed, non-split pair (their
streams are finished, mismatched, or split at the front) still produces the
baseline row, and that row carries `skipped = true` (the
`if skip or len(valid) == 0` branch). -/
theorem usable_baseline_no_valid_skipped (useEd : Bool) (idx : Nat) (name : String)
    (a b : Rec) (streams : Streams) (hists : Hists) (out : List TableRow × Streams × Hists)
    (hqa : a.isQcfail = false) (hqb : b.isQcfail = false)
    (hns : ∀ s ∈ streams, noUsable name s.2)
    (h : stepGroup useEd idx (name, [a], [b]) streams hists = .ok out) :
    ∃ rowU rest, out.1 = rowU :: rest ∧ rowU.prog = "untrimmed" ∧ rowU.readName = name ∧
      rowU.skipped = true ∧ rowU.split = false ∧ rowU.failed = false := by
  cases hah : addHistM hists "untrimmed" a b with
  | error e =>
    have hbc : baseClassify idx name [a] [b] hists = .error e := by
      simp only [baseClassify, hah, hqa, hqb]
      rw [if_neg (by simp), if_neg (by simp), if_neg (by simp)]
      rfl
    rw [stepGroup_err hbc] at h
    exact Except.noConfusion h
  | ok hists1 =>
    cases hsp : setFromPair (mkRow "untrimmed" name idx) a b with
    | error e =>
      have hbc : baseClassify idx name [a] [b] hists = .error e := by
        simp only [baseClassify, hah, hsp, hqa, hqb]
        rw [if_neg (by simp), if_neg (by simp), if_neg (by simp)]
        rfl
      rw [stepGroup_err hbc] at h
      exact Except.noConfusion h
    | ok rowU1 =>
      have hbc : baseClassify idx name [a] [b] hists = .ok (.bok a b rowU1, hists1) := by
        simp only [baseClassify, hah, hsp, hqa, hqb]
        rw [if_neg (by simp), if_neg (by simp), if_neg (by simp)]
        rfl
      cases hpl : progLoop name idx false false streams hists1 with
      | error e =>
        rw [stepGroup_err2 hbc hpl] at h
        exact Except.noConfusion h
      | ok q =>
        obtain ⟨rowsP, s1, h2, v⟩ := q
        have hv : v = [] := progLoop_no_valid name idx false streams hists1 rowsP s1 h2 v hns hpl
        subst hv
        rw [stepGroup_eq hbc hpl] at h
        rw [show stepFinish useEd (.bok a b rowU1) rowsP s1 h2 [] =
          .ok ({ rowU1 with skipped := true } :: rowsP.map Prod.snd, s1, h2) from rfl] at h
        cases h
        obtain ⟨hprog, hname, _, _, hsplit, _⟩ := setFromPair_fields hsp
        exact ⟨{ rowU1 with skipped := true }, rowsP.map Prod.snd, rfl, hprog, hname, rfl,
          hsplit, by
            have := (setFromPair_fields hsp).2.2.1
            exact this⟩

/-- Witness for C9: usable baseline pair at R1; P's stream fronts a different
identity RX. -/
theorem usable_baseline_no_valid_skipped_witness :
    ((testRec "R1" true).isQcfail = false ∧ (testRec "R1" false).isQcfail = false ∧
      (∀ s ∈ ([("P", [("RX", [testRec "RX" true], [testRec "RX" false])])] : Streams),
        noUsable "R1" s.2)) ∧
    ∃ out, stepGroup true 1 ("R1", [testRec "R1" true], [testRec "R1" false])
        [("P", [("RX", [testRec "RX" true], [testRec "RX" false])])]
        [("untrimmed", initHist "untrimmed" 4), ("P", initHist "P" 4)] = .ok out ∧
      ∃ rowU rest, out.1 = rowU :: rest ∧ rowU.prog = "untrimmed" ∧ rowU.readName = "R1" ∧
        rowU.skipped = true ∧ rowU.split = false ∧ rowU.failed = false :=
  ⟨⟨rfl, rfl, by
      intro s hs
      rcases List.mem_singleton.mp hs with rfl
      exact Or.inl (by decide)⟩,
    ⟨_, rfl,
      usable_baseline_no_valid_skipped true 1 "R1" (testRec "R1" true) (testRec "R1" false)
        [("P", [("RX", [testRec "RX" true], [testRec "RX" false])])]
        [("untrimmed", initHist "untrimmed" 4), ("P", initHist "P" 4)] _ rfl rfl
        (by
          intro s hs
          rcases List.mem_singleton.mp hs with rfl
          exact Or.inl (by decide)) rfl⟩⟩

/-! ### Which runtime failures can actually fire (C10) -/

theorem addHistM_err : ∀ (hists : Hists) (prog : String) (r1 r2 : Rec) (e : Err),
    addHistM hists prog r1 r2 = .error e → e = .keyError := by
  intro hists
  induction hists with
  | nil => intro prog r1 r2 e h; exact Except.noConfusion h
  | cons ph rest ih =>
    obtain ⟨p, hh⟩ := ph
    intro prog r1 r2 e h
    rw [addHistM] at h
    by_cases hp : p = prog
    · rw [if_pos hp] at h
      revert h
      cases Hist.addReads hh r1.querySequence r2.querySequence with
      | none => intro h; exact (Except.error.inj h).symm
      | some h1 => intro h; exact Except.noConfusion h
    · rw [if_neg hp] at h
      revert h
      cases hrec : addHistM rest prog r1 r2 with
      | error e1 => intro h; exact (Except.error.inj h).symm ▸ ih prog r1 r2 e1 hrec
      | ok rest1 => intro h; exact Except.noConfusion h

theorem updateRowM_err : ∀ (rows : List (String × TableRow)) (prog : String)
    (f : TableRow → Except Err TableRow) (e : Err),
    (∀ row e1, f row = .error e1 → e1 = .properMismatch) →
    updateRowM f prog rows = .error e → e = .properMismatch := by
  intro rows
  induction rows with
  | nil => intro prog f e _ h; exact Except.noConfusion h
  | cons pr rest ih =>
    obtain ⟨p, r⟩ := pr
    intro prog f e hf h
    rw [updateRowM] at h
    by_cases hp : p = prog
    · rw [if_pos hp] at h
      revert h
      cases hfr : f r with
      | error e1 => intro h; exact (Except.error.inj h).symm ▸ hf r e1 hfr
      | ok r1 => intro h; exact Except.noConfusion h
    · rw [if_neg hp] at h
      revert h
      cases hrec : updateRowM f prog rest with
      | error e1 => intro h; exact (Except.error.inj h).symm ▸ ih prog f e1 hf hrec
      | ok rest1 => intro h; exact Except.noConfusion h

theorem applyValids_err (useEd : Bool) (a b : Rec) :
    ∀ (v : List (String × Rec × Rec)) (rows : List (String × TableRow)) (e : Err),
      applyValids useEd a b rows v = .error e → e = .properMismatch := by
  intro v
  induction v with
  | nil => intro rows e h; exact Except.noConfusion h
  | cons pv rest ih =>
    obtain ⟨prog, r1, r2⟩ := pv
    intro rows e h
    rw [applyValids] at h
    revert h
    cases hupd : updateRowM (fun row =>
        Except.bind (setFromPair row r1 r2) (fun row1 => .ok { row1 with
            read1 := setTrimmingRead row1.read1 a r1 useEd,
            read2 := setTrimmingRead row1.read2 b r2 useEd })) prog rows with
    | error e1 =>
      intro h
      have he : e = e1 := Except.error.inj h |>.symm
      subst he
      refine updateRowM_err rows prog _ e (fun row e2 hrow => ?_) hupd
      revert hrow
      cases hsp : setFromPair row r1 r2 with
      | error e3 => intro hrow; exact (Except.error.inj hrow).symm ▸ setFromPair_err hsp
      | ok row1 => intro hrow; exact Except.noConfusion hrow
    | ok rows1 =>
      intro h
      exact ih rows1 e h

theorem baseClassify_err {idx : Nat} {name : String} {u1 u2 : List Rec} {hists : Hists} {e : Err}
    (h1 : u1 ≠ []) (h2 : u2 ≠ [])
    (h : baseClassify idx name u1 u2 hists = .error e) :
    e = .keyError ∨ e = .properMismatch := by
  have hne : ¬(u1 = [] ∨ u2 = []) := by
    rintro (hx | hx)
    · exact h1 hx
    · exact h2 hx
  by_cases hlen : u1.length > 1 ∨ u2.length > 1
  · rw [show baseClassify idx name u1 u2 hists =
        .ok (.bsplit { mkRow "untrimmed" name idx with split := true }, hists) by
      simp only [baseClassify, if_neg hne, if_pos hlen]] at h
    exact Except.noConfusion h
  · cases u1 with
    | nil => exact absurd rfl h1
    | cons a arest =>
      cases u2 with
      | nil => exact absurd rfl h2
      | cons b brest =>
        by_cases hq : (a.isQcfail || b.isQcfail) = true
        · rw [show baseClassify idx name (a :: arest) (b :: brest) hists =
              .ok (.bfail { mkRow "untrimmed" name idx with failed := true }, hists) by
            simp only [baseClassify]
            rw [if_neg hne, if_neg hlen, if_pos hq]] at h
          exact Except.noConfusion h
        · cases hah : addHistM hists "untrimmed" a b with
          | error e1 =>
            rw [show baseClassify idx name (a :: arest) (b :: brest) hists = .error e1 by
              simp only [baseClassify, hah]
              rw [if_neg hne, if_neg hlen, if_neg hq]
              rfl] at h
            exact Or.inl ((Except.error.inj h).symm ▸ addHistM_err hists "untrimmed" a b e1 hah)
          | ok hists1 =>
            cases hsp : setFromPair (mkRow "untrimmed" name idx) a b with
            | error e2 =>
              rw [show baseClassify idx name (a :: arest) (b :: brest) hists = .error e2 by
                simp only [baseClassify, hah, hsp]
                rw [if_neg hne, if_neg hlen, if_neg hq]
                rfl] at h
              exact Or.inr ((Except.error.inj h).symm ▸ setFromPair_err hsp)
            | ok rowU1 =>
              rw [show baseClassify idx name (a :: arest) (b :: brest) hists =
                  .ok (.bok a b rowU1, hists1) by
                simp only [baseClassify, hah, hsp]
                rw [if_neg hne, if_neg hlen, if_neg hq]
                rfl] at h
              exact Except.noConfusion h

/-- Every group still queued in any program stream has both mate sub-lists
non-empty. -/
def PreS (streams : Streams) : Prop :=
  ∀ s ∈ streams, ∀ g ∈ s.2, g.2.1 ≠ [] ∧ g.2.2 ≠ []

theorem progLoop_err (name : String) (idx : Nat) (skip fail : Bool) :
    ∀ (streams : Streams) (hists : Hists) (e : Err), PreS streams →
      progLoop name idx skip fail streams hists = .error e → e = .keyError := by
  intro streams
  induction streams with
  | nil =>
    intro hists e _ h
    rw [progLoop] at h
    exact Except.noConfusion h
  | cons s streams ih =>
    obtain ⟨prog, bam⟩ := s
    intro hists e hpre h
    have hrest : PreS streams := fun s hs => hpre s (by simp [hs])
    cases bam with
    | nil =>
      simp only [progLoop] at h
      revert h
      cases hrec : progLoop name idx skip fail streams hists with
      | error e1 => intro h; exact (Except.error.inj h).symm ▸ ih hists e1 hrest hrec
      | ok q => obtain ⟨r1, s1, h1, v1⟩ := q; intro h; exact Except.noConfusion h
    | cons g bamRest =>
      obtain ⟨gname, t1, t2⟩ := g
      have hg := hpre (prog, (gname, t1, t2) :: bamRest) (by simp) (gname, t1, t2) (by simp)
      have hemp : ¬(t1 = [] ∨ t2 = []) := by
        rintro (hx | hx)
        · exact hg.1 hx
        · exact hg.2 hx
      by_cases hname : gname = name
      · by_cases hlen : t1.length > 1 ∨ t2.length > 1
        · simp only [progLoop, if_pos hname, if_neg hemp, if_pos hlen] at h
          revert h
          cases hrec : progLoop name idx skip fail streams hists with
          | error e1 => intro h; exact (Except.error.inj h).symm ▸ ih hists e1 hrest hrec
          | ok q => obtain ⟨r1, s1, h1, v1⟩ := q; intro h; exact Except.noConfusion h
        · cases t1 with
          | nil => exact absurd (Or.inl rfl) hemp
          | cons a arest =>
            cases t2 with
            | nil => exact absurd (Or.inr rfl) hemp
            | cons b brest =>
              simp only [progLoop, if_pos hname, if_neg hemp, if_neg hlen] at h
              by_cases hskip : skip = true
              · rw [if_pos hskip] at h
                revert h
                cases hrec : progLoop name idx skip fail streams hists with
                | error e1 => intro h; exact (Except.error.inj h).symm ▸ ih hists e1 hrest hrec
                | ok q => obtain ⟨r1, s1, h1, v1⟩ := q; intro h; exact Except.noConfusion h
              · rw [if_neg hskip] at h
                revert h
                cases hah : addHistM hists prog a b with
                | error e1 =>
                  intro h
                  exact (Except.error.inj h).symm ▸ addHistM_err hists prog a b e1 hah
                | ok hists1 =>
                  intro h
                  simp only [exbind_ok_left] at h
                  revert h
                  cases hrec : progLoop name idx skip fail streams hists1 with
                  | error e1 =>
                    intro h
                    exact (Except.error.inj h).symm ▸ ih hists1 e1 hrest hrec
                  | ok q => obtain ⟨r1, s1, h1, v1⟩ := q; intro h; exact Except.noConfusion h
      · simp only [progLoop, if_neg hname] at h
        revert h
        cases hrec : progLoop name idx skip fail streams hists with
        | error e1 => intro h; exact (Except.error.inj h).symm ▸ ih hists e1 hrest hrec
        | ok q => obtain ⟨r1, s1, h1, v1⟩ := q; intro h; exact Except.noConfusion h

theorem progLoop_pre (name : String) (idx : Nat) (skip fail : Bool) :
    ∀ (streams : Streams) (hists : Hists) rowsP s1 h2 v, PreS streams →
      progLoop name idx skip fail streams hists = .ok (rowsP, s1, h2, v) → PreS s1 := by
  intro streams
  induction streams with
  | nil =>
    intro hists rowsP s1 h2 v _ h
    rw [progLoop] at h
    cases h
    intro s hs
    exact absurd hs (List.not_mem_nil s)
  | cons s streams ih =>
    obtain ⟨prog, bam⟩ := s
    intro hists rowsP s1 h2 v hpre h
    have hrest : PreS streams := fun s hs => hpre s (by simp [hs])
    have hhead : ∀ g ∈ bam, g.2.1 ≠ [] ∧ g.2.2 ≠ [] := hpre (prog, bam) (by simp)
    have hcons : ∀ (s2 : Streams) (keep : List ReadGroup),
        (∀ g ∈ keep, g.2.1 ≠ [] ∧ g.2.2 ≠ []) → PreS s2 → PreS ((prog, keep) :: s2) := by
      intro s2 keep hk hs2 s hs
      rcases List.mem_cons.mp hs with rfl | hs
      · exact hk
      · exact hs2 s hs
    cases bam with
    | nil =>
      simp only [progLoop] at h
      revert h
      cases hrec : progLoop name idx skip fail streams hists with
      | error e1 => intro h; exact Except.noConfusion h
      | ok q =>
        obtain ⟨r1, sx, h1, v1⟩ := q
        intro h
        cases h
        exact hcons _ _ (by intro g hg; exact absurd hg (List.not_mem_nil g))
          (ih _ _ _ _ _ hrest hrec)
    | cons g bamRest =>
      obtain ⟨gname, t1, t2⟩ := g
      have htail : ∀ g ∈ bamRest, g.2.1 ≠ [] ∧ g.2.2 ≠ [] := fun g hg => hhead g (by simp [hg])
      have hemp : ¬(t1 = [] ∨ t2 = []) := by
        have hg := hhead (gname, t1, t2) (by simp)
        rintro (hx | hx)
        · exact hg.1 hx
        · exact hg.2 hx
      by_cases hname : gname = name
      · by_cases hlen : t1.length > 1 ∨ t2.length > 1
        · simp only [progLoop, if_pos hname, if_neg hemp, if_pos hlen] at h
          revert h
          cases hrec : progLoop name idx skip fail streams hists with
          | error e1 => intro h; exact Except.noConfusion h
          | ok q =>
            obtain ⟨r1, sx, h1, v1⟩ := q
            intro h
            cases h
            exact hcons _ _ htail (ih _ _ _ _ _ hrest hrec)
        · cases t1 with
          | nil => exact absurd (Or.inl rfl) hemp
          | cons a arest =>
            cases t2 with
            | nil => exact absurd (Or.inr rfl) hemp
            | cons b brest =>
              simp only [progLoop, if_pos hname, if_neg hemp, if_neg hlen] at h
              by_cases hskip : skip = true
              · rw [if_pos hskip] at h
                revert h
                cases hrec : progLoop name idx skip fail streams hists with
                | error e1 => intro h; exact Except.noConfusion h
                | ok q =>
                  obtain ⟨r1, sx, h1, v1⟩ := q
                  intro h
                  cases h
                  exact hcons _ _ htail (ih _ _ _ _ _ hrest hrec)
              · rw [if_neg hskip] at h
                revert h
                cases hah : addHistM hists prog a b with
                | error e1 => intro h; exact Except.noConfusion h
                | ok hists1 =>
                  intro h
                  simp only [exbind_ok_left] at h
                  revert h
                  cases hrec : progLoop name idx skip fail streams hists1 with
                  | error e1 => intro h; exact Except.noConfusion h
                  | ok q =>
                    obtain ⟨r1, sx, h1, v1⟩ := q
                    intro h
                    cases h
                    exact hcons _ _ htail (ih _ _ _ _ _ hrest hrec)
      · simp only [progLoop, if_neg hname] at h
        revert h
        cases hrec : progLoop name idx skip fail streams hists with
        | error e1 => intro h; exact Except.noConfusion h
        | ok q =>
          obtain ⟨r1, sx, h1, v1⟩ := q
          intro h
          cases h
          exact hcons _ _ hhead (ih _ _ _ _ _ hrest hrec)

theorem stepFinish_streams {useEd : Bool} {bout : BOut} {rowsP : List (String × TableRow)}
    {streams1 : Streams} {hists2 : Hists} {valids : List (String × Rec × Rec)}
    {out : List TableRow × Streams × Hists}
    (h : stepFinish useEd bout rowsP streams1 hists2 valids = .ok out) :
    out.2.1 = streams1 ∧ out.2.2 = hists2 := by
  cases bout with
  | bsplit rowU =>
    cases h
    exact ⟨rfl, rfl⟩
  | bfail rowU =>
    cases h
    exact ⟨rfl, rfl⟩
  | bok a b rowU =>
    rw [stepFinish] at h
    by_cases hv : valids = []
    · rw [if_pos hv] at h
      cases h
      exact ⟨rfl, rfl⟩
    · rw [if_neg hv] at h
      obtain ⟨rowsP1, _, hok⟩ := exbind_ok h
      cases hok
      exact ⟨rfl, rfl⟩

theorem stepFinish_err {useEd : Bool} {bout : BOut} {rowsP : List (String × TableRow)}
    {streams1 : Streams} {hists2 : Hists} {valids : List (String × Rec × Rec)} {e : Err}
    (h : stepFinish useEd bout rowsP streams1 hists2 valids = .error e) :
    e = .properMismatch := by
  cases bout with
  | bsplit rowU => exact Except.noConfusion h
  | bfail rowU => exact Except.noConfusion h
  | bok a b rowU =>
    rw [stepFinish] at h
    by_cases hv : valids = []
    · rw [if_pos hv] at h
      exact Except.noConfusion h
    · rw [if_neg hv] at h
      rcases exbind_err h with herr | ⟨rowsP1, _, hok⟩
      · exact applyValids_err useEd a b valids rowsP e herr
      · exact Except.noConfusion hok

theorem stepGroup_inv {useEd : Bool} {idx : Nat} {g : ReadGroup} {streams : Streams}
    {hists : Hists} {out : List TableRow × Streams × Hists}
    (h : stepGroup useEd idx g streams hists = .ok out) :
    ∃ bout hists1 rowsP streams1 hists2 valids,
      baseClassify idx g.1 g.2.1 g.2.2 hists = .ok (bout, hists1) ∧
      progLoop g.1 idx (skipOf bout) (failOf bout) streams hists1 =
        .ok (rowsP, streams1, hists2, valids) ∧
      stepFinish useEd bout rowsP streams1 hists2 valids = .ok out ∧
      out.2.1 = streams1 ∧ out.2.2 = hists2 := by
  cases hbc : baseClassify idx g.1 g.2.1 g.2.2 hists with
  | error e =>
    rw [stepGroup_err hbc] at h
    exact Except.noConfusion h
  | ok p =>
    obtain ⟨bout, hists1⟩ := p
    cases hpl : progLoop g.1 idx (skipOf bout) (failOf bout) streams hists1 with
    | error e =>
      rw [stepGroup_err2 hbc hpl] at h
      exact Except.noConfusion h
    | ok q =>
      obtain ⟨rowsP, streams1, hists2, valids⟩ := q
      rw [stepGroup_eq hbc hpl] at h
      exact ⟨bout, hists1, rowsP, streams1, hists2, valids, rfl, hpl, h,
        stepFinish_streams h⟩

theorem stepGroup_err_class {useEd : Bool} {idx : Nat} {g : ReadGroup} {streams : Streams}
    {hists : Hists} {e : Err}
    (hg1 : g.2.1 ≠ []) (hg2 : g.2.2 ≠ []) (hpre : PreS streams)
    (h : stepGroup useEd idx g streams hists = .error e) :
    e = .keyError ∨ e = .properMismatch := by
  cases hbc : baseClassify idx g.1 g.2.1 g.2.2 hists with
  | error e1 =>
    rw [stepGroup_err hbc] at h
    exact (Except.error.inj h) ▸ baseClassify_err hg1 hg2 hbc
  | ok p =>
    obtain ⟨bout, hists1⟩ := p
    cases hpl : progLoop g.1 idx (skipOf bout) (failOf bout) streams hists1 with
    | error e1 =>
      rw [stepGroup_err2 hbc hpl] at h
      exact Or.inl ((Except.error.inj h).symm ▸
        progLoop_err g.1 idx (skipOf bout) (failOf bout) streams hists1 e1 hpre hpl)
    | ok q =>
      obtain ⟨rowsP, streams1, hists2, valids⟩ := q
      rw [stepGroup_eq hbc hpl] at h
      exact Or.inr (stepFinish_err h)

theorem stepGroup_pre {useEd : Bool} {idx : Nat} {g : ReadGroup} {streams : Streams}
    {hists : Hists} {out : List TableRow × Streams × Hists}
    (hpre : PreS streams) (h : stepGroup useEd idx g streams hists = .ok out) :
    PreS out.2.1 := by
  obtain ⟨bout, hists1, rowsP, streams1, hists2, valids, hbc, hpl, hsf, hs1, hs2⟩ :=
    stepGroup_inv h
  rw [hs1]
  exact progLoop_pre g.1 idx (skipOf bout) (failOf bout) streams hists1
    rowsP streams1 hists2 valids hpre hpl

theorem summarizeRun_err_class (useEd : Bool) (mx : Option Nat) :
    ∀ (groups : List ReadGroup) (i : Nat) (streams : Streams) (hists : Hists)
      (acc : List TableRow) (e : Err),
      (∀ g ∈ groups, g.2.1 ≠ [] ∧ g.2.2 ≠ []) → PreS streams →
      summarizeRun useEd mx groups i streams hists acc = .error e →
      e = .keyError ∨ e = .properMismatch := by
  intro groups
  induction groups with
  | nil =>
    intro i streams hists acc e _ _ h
    rw [summarizeRun] at h
    exact Except.noConfusion h
  | cons g rest ih =>
    intro i streams hists acc e hgs hpre h
    rw [summarizeRun] at h
    rcases exbind_err h with herr | ⟨r, hok, hrest⟩
    · exact stepGroup_err_class (hgs g (by simp)).1 (hgs g (by simp)).2 hpre herr
    · by_cases hstop : stopAfter mx i = true
      · rw [if_pos hstop] at hrest
        exact Except.noConfusion hrest
      · rw [if_neg hstop] at hrest
        exact ih (i + 1) r.2.1 r.2.2 (acc ++ r.1) e
          (fun g2 hg2 => hgs g2 (by simp [hg2])) (stepGroup_pre hpre hok) hrest

/-- C10: the engine asserts that every consumed group (baseline or trimmed
program) has a non-empty sub-list for each mate — a violating group aborts
the run with that assertion (first and third conjuncts) — and under the
precondition that every queued group has both sub-lists non-empty, neither
mate-list assertion can ever fire (second conjunct; only the proper-pair
assertion or a histogram `KeyError` remain possible). -/
theorem summarize_mate_asserts :
    (summarize true none 4 [("R1", [], [testRec "R1" false])] [] =
      .error .emptyBaseline) ∧
    (∀ (useEd : Bool) (mx : Option Nat) (nb : Nat) (groups : List ReadGroup)
      (streams : Streams),
      (∀ g ∈ groups, g.2.1 ≠ [] ∧ g.2.2 ≠ []) → PreS streams →
      summarize useEd mx nb groups streams ≠ .error .emptyBaseline ∧
      summarize useEd mx nb groups streams ≠ .error .emptyTrimmed) ∧
    (summarize true none 4 [("R1", [testRec "R1" true], [testRec "R1" false])]
        [("P", [("R1", [], [testRec "R1" false])])] =
      .error .emptyTrimmed) := by
  refine ⟨rfl, ?_, rfl⟩
  intro useEd mx nb groups streams hgs hpre
  constructor
  · intro h
    rcases summarizeRun_err_class useEd mx groups 1 streams _ [] .emptyBaseline hgs hpre h with
      hx | hx <;> exact Err.noConfusion hx
  · intro h
    rcases summarizeRun_err_class useEd mx groups 1 streams _ [] .emptyTrimmed hgs hpre h with
      hx | hx <;> exact Err.noConfusion hx

/-- Witness for C10's universally quantified conjunct at a concrete run. -/
theorem summarize_mate_asserts_witness :
    ((∀ g ∈ ([("R1", [testRec "R1" true], [testRec "R1" false])] : List ReadGroup),
        g.2.1 ≠ [] ∧ g.2.2 ≠ []) ∧
      PreS [("P", [("R1", [testRec "R1" true], [testRec "R1" false])])]) ∧
    (summarize true none 4 [("R1", [testRec "R1" true], [testRec "R1" false])]
        [("P", [("R1", [testRec "R1" true], [testRec "R1" false])])] ≠
      .error .emptyBaseline ∧
     summarize true none 4 [("R1", [testRec "R1" true], [testRec "R1" false])]
        [("P", [("R1", [testRec "R1" true], [testRec "R1" false])])] ≠
      .error .emptyTrimmed) :=
  ⟨⟨by decide, by
      intro s hs
      rcases List.mem_singleton.mp hs with rfl
      intro g hg
      rcases List.mem_singleton.mp hg with rfl
      exact ⟨by decide, by decide⟩⟩,
    summarize_mate_asserts.2.1 true none 4
      [("R1", [testRec "R1" true], [testRec "R1" false])]
      [("P", [("R1", [testRec "R1" true], [testRec "R1" false])])]
      (by decide)
      (by
        intro s hs
        rcases List.mem_singleton.mp hs with rfl
        intro g hg
        rcases List.mem_singleton.mp hg with rfl
        exact ⟨by decide, by decide⟩)⟩

/-! ### One row per program per baseline identity (C4) -/

/-- The untrimmed row carried by a baseline classification outcome. -/
def rowUOf : BOut → TableRow
  | .bsplit r => r
  | .bfail r => r
  | .bok _ _ r => r

theorem baseClassify_row {idx : Nat} {name : String} {u1 u2 : List Rec} {hists : Hists}
    {bout : BOut} {hists1 : Hists}
    (hbc : baseClassify idx name u1 u2 hists = .ok (bout, hists1)) :
    (rowUOf bout).prog = "untrimmed" ∧ (rowUOf bout).readName = name := by
  cases u1 with
  | nil =>
    rw [baseClassify, if_pos (Or.inl rfl)] at hbc
    exact Except.noConfusion hbc
  | cons a arest =>
    cases u2 with
    | nil =>
      rw [baseClassify, if_pos (Or.inr rfl)] at hbc
      exact Except.noConfusion hbc
    | cons b brest =>
      simp only [baseClassify] at hbc
      by_cases hne : a :: arest = [] ∨ b :: brest = []
      · rw [if_pos hne] at hbc
        exact Except.noConfusion hbc
      · rw [if_neg hne] at hbc
        by_cases hlen : (a :: arest).length > 1 ∨ (b :: brest).length > 1
        · rw [if_pos hlen] at hbc
          cases hbc
          exact ⟨rfl, rfl⟩
        · rw [if_neg hlen] at hbc
          by_cases hq : (a.isQcfail || b.isQcfail) = true
          · rw [if_pos hq] at hbc
            cases hbc
            exact ⟨rfl, rfl⟩
          · rw [if_neg hq] at hbc
            obtain ⟨hx, _, hbc2⟩ := exbind_ok hbc
            obtain ⟨rowU1, hsp, hbc3⟩ := exbind_ok hbc2
            cases hbc3
            obtain ⟨hprog, hname, _⟩ := setFromPair_fields hsp
            exact ⟨hprog, hname⟩

theorem progLoop_tags (name : String) (idx : Nat) (skip fail : Bool) :
    ∀ (streams : Streams) (hists : Hists) rowsP s1 h2 v,
      progLoop name idx skip fail streams hists = .ok (rowsP, s1, h2, v) →
      rowsP.map (fun pr => (pr.1, pr.2.prog, pr.2.readName)) =
        streams.map (fun s => (s.1, s.1, name)) ∧
      s1.map Prod.fst = streams.map Prod.fst := by
  intro streams
  induction streams with
  | nil =>
    intro hists rowsP s1 h2 v h
    rw [progLoop] at h
    cases h
    exact ⟨by trivial, by trivial⟩
  | cons s streams ih =>
    obtain ⟨prog, bam⟩ := s
    intro hists rowsP s1 h2 v h
    cases bam with
    | nil =>
      simp only [progLoop] at h
      obtain ⟨q, hrec, hq⟩ := exbind_ok h
      obtain ⟨r1, sx, h1, v1⟩ := q
      cases hq
      obtain ⟨ht, hk⟩ := ih _ _ _ _ _ hrec
      by_cases hskip : skip = true
      · simp only [List.map_cons, ht, hk, if_pos hskip]
        exact ⟨by trivial, by trivial⟩
      · simp only [List.map_cons, ht, hk, if_neg hskip]
        exact ⟨by trivial, by trivial⟩
    | cons g bamRest =>
      obtain ⟨gname, t1, t2⟩ := g
      by_cases hname : gname = name
      · by_cases hemp : t1 = [] ∨ t2 = []
        · simp only [progLoop, if_pos hname, if_pos hemp] at h
          exact Except.noConfusion h
        · by_cases hlen : t1.length > 1 ∨ t2.length > 1
          · simp only [progLoop, if_pos hname, if_neg hemp, if_pos hlen] at h
            obtain ⟨q, hrec, hq⟩ := exbind_ok h
            obtain ⟨r1, sx, h1, v1⟩ := q
            cases hq
            obtain ⟨ht, hk⟩ := ih _ _ _ _ _ hrec
            by_cases hskip : skip = true
            · simp only [List.map_cons, ht, hk, if_pos hskip]
              exact ⟨by trivial, by trivial⟩
            · simp only [List.map_cons, ht, hk, if_neg hskip]
              exact ⟨by trivial, by trivial⟩
          · cases t1 with
            | nil => exact absurd (Or.inl rfl) hemp
            | cons a arest =>
              cases t2 with
              | nil => exact absurd (Or.inr rfl) hemp
              | cons b brest =>
                simp only [progLoop, if_pos hname, if_neg hemp, if_neg hlen] at h
                by_cases hskip : skip = true
                · rw [if_pos hskip] at h
                  obtain ⟨q, hrec, hq⟩ := exbind_ok h
                  obtain ⟨r1, sx, h1, v1⟩ := q
                  cases hq
                  obtain ⟨ht, hk⟩ := ih _ _ _ _ _ hrec
                  simp only [List.map_cons, ht, hk, if_pos hskip]
                  exact ⟨by trivial, by trivial⟩
                · rw [if_neg hskip] at h
                  obtain ⟨hists1, hah, h2x⟩ := exbind_ok h
                  obtain ⟨q, hrec, hq⟩ := exbind_ok h2x
                  obtain ⟨r1, sx, h1, v1⟩ := q
                  cases hq
                  obtain ⟨ht, hk⟩ := ih _ _ _ _ _ hrec
                  simp only [List.map_cons, ht, hk, if_neg hskip]
                  exact ⟨by trivial, by trivial⟩
      · simp only [progLoop, if_neg hname] at h
        obtain ⟨q, hrec, hq⟩ := exbind_ok h
        obtain ⟨r1, sx, h1, v1⟩ := q
        cases hq
        obtain ⟨ht, hk⟩ := ih _ _ _ _ _ hrec
        by_cases hskip : skip = true
        · simp only [List.map_cons, ht, hk, if_pos hskip]
          exact ⟨by trivial, by trivial⟩
        · simp only [List.map_cons, ht, hk, if_neg hskip]
          exact ⟨by trivial, by trivial⟩

theorem updateRowM_tags (prog : String) (f : TableRow → Except Err TableRow)
    (hf : ∀ row row1, f row = .ok row1 → row1.prog = row.prog ∧ row1.readName = row.readName) :
    ∀ (rows rows1 : List (String × TableRow)), updateRowM f prog rows = .ok rows1 →
      rows1.map (fun pr => (pr.2.prog, pr.2.readName)) =
        rows.map (fun pr => (pr.2.prog, pr.2.readName)) := by
  intro rows
  induction rows with
  | nil =>
    intro rows1 h
    rw [updateRowM] at h
    cases h
    rfl
  | cons pr rest ih =>
    obtain ⟨p, r⟩ := pr
    intro rows1 h
    rw [updateRowM] at h
    by_cases hp : p = prog
    · rw [if_pos hp] at h
      obtain ⟨r1, hfr, hok⟩ := exbind_ok h
      cases hok
      obtain ⟨h1, h2⟩ := hf r r1 hfr
      simp only [List.map_cons, h1, h2]
    · rw [if_neg hp] at h
      obtain ⟨rest1, hrec, hok⟩ := exbind_ok h
      cases hok
      simp only [List.map_cons, ih rest1 hrec]

theorem applyValids_tags (useEd : Bool) (a b : Rec) :
    ∀ (v : List (String × Rec × Rec)) (rows rows1 : List (String × TableRow)),
      applyValids useEd a b rows v = .ok rows1 →
      rows1.map (fun pr => (pr.2.prog, pr.2.readName)) =
        rows.map (fun pr => (pr.2.prog, pr.2.readName)) := by
  intro v
  induction v with
  | nil =>
    intro rows rows1 h
    rw [applyValids] at h
    cases h
    rfl
  | cons pv rest ih =>
    obtain ⟨prog, r1, r2⟩ := pv
    intro rows rows1 h
    rw [applyValids] at h
    obtain ⟨rowsm, hupd, hrec⟩ := exbind_ok h
    have hf : ∀ row row1,
        Except.bind (setFromPair row r1 r2) (fun row1 => .ok { row1 with
            read1 := setTrimmingRead row1.read1 a r1 useEd,
            read2 := setTrimmingRead row1.read2 b r2 useEd }) = .ok row1 →
        row1.prog = row.prog ∧ row1.readName = row.readName := by
      intro row row1 hrow
      obtain ⟨rowx, hsp, hok⟩ := exbind_ok hrow
      cases hok
      obtain ⟨h1, h2, _⟩ := setFromPair_fields hsp
      exact ⟨h1, h2⟩
    rw [ih rowsm rows1 hrec, updateRowM_tags prog _ hf rows rowsm hupd]

theorem stepFinish_tags {useEd : Bool} {bout : BOut} {rowsP : List (String × TableRow)}
    {streams1 : Streams} {hists2 : Hists} {valids : List (String × Rec × Rec)}
    {out : List TableRow × Streams × Hists}
    (h : stepFinish useEd bout rowsP streams1 hists2 valids = .ok out) :
    out.1.map (fun r => (r.prog, r.readName)) =
      ((rowUOf bout).prog, (rowUOf bout).readName) ::
        rowsP.map (fun pr => (pr.2.prog, pr.2.readName)) := by
  cases bout with
  | bsplit rowU =>
    cases h
    simp only [List.map_cons, List.map_map]
    rfl
  | bfail rowU =>
    cases h
    simp only [List.map_cons, List.map_map]
    rfl
  | bok a b rowU =>
    rw [stepFinish] at h
    by_cases hv : valids = []
    · rw [if_pos hv] at h
      cases h
      simp only [List.map_cons, List.map_map]
      rfl
    · rw [if_neg hv] at h
      obtain ⟨rowsP1, happ, hok⟩ := exbind_ok h
      cases hok
      simp only [List.map_cons, List.map_map]
      rw [show ((fun r : TableRow => (r.prog, r.readName)) ∘ Prod.snd) =
        (fun pr : String × TableRow => (pr.2.prog, pr.2.readName)) from rfl]
      rw [applyValids_tags useEd a b valids rowsP rowsP1 happ]
      rfl

theorem stepGroup_tags {useEd : Bool} {idx : Nat} {g : ReadGroup} {streams : Streams}
    {hists : Hists} {out : List TableRow × Streams × Hists}
    (h : stepGroup useEd idx g streams hists = .ok out) :
    out.1.map (fun r => (r.prog, r.readName)) =
      ("untrimmed" :: streams.map Prod.fst).map (fun p => (p, g.1)) ∧
    out.2.1.map Prod.fst = streams.map Prod.fst := by
  obtain ⟨bout, hists1, rowsP, streams1, hists2, valids, hbc, hpl, hsf, hs1, hs2⟩ :=
    stepGroup_inv h
  obtain ⟨hu1, hu2⟩ := baseClassify_row hbc
  obtain ⟨htags, hkeys⟩ :=
    progLoop_tags g.1 idx (skipOf bout) (failOf bout) streams hists1 rowsP streams1 hists2
      valids hpl
  have htags2 : rowsP.map (fun pr => (pr.2.prog, pr.2.readName)) =
      streams.map (fun s => (s.1, g.1)) := by
    have hcongr := congrArg (List.map (fun t : String × String × String => t.2)) htags
    simp only [List.map_map] at hcongr
    exact hcongr
  constructor
  · rw [stepFinish_tags hsf, hu1, hu2, htags2]
    simp only [List.map_cons, List.map_map]
    rfl
  · rw [hs1]
    exact hkeys

theorem bind_cons_pairs (x : String) (xs : List String) (f : String → List (String × String)) :
    (x :: xs).bind f = f x ++ xs.bind f := rfl

theorem bind_nil_pairs (f : String → List (String × String)) :
    ([] : List String).bind f = [] := rfl

theorem summarizeRun_tags (useEd : Bool) (mx : Option Nat) :
    ∀ (groups : List ReadGroup) (i : Nat) (streams : Streams) (hists : Hists)
      (acc rows : List TableRow) (histsOut : Hists),
      summarizeRun useEd mx groups i streams hists acc = .ok (rows, histsOut) →
      ∃ k, k ≤ groups.length ∧
        rows.map (fun r => (r.prog, r.readName)) =
          acc.map (fun r => (r.prog, r.readName)) ++
          ((groups.take k).map Prod.fst).bind
            (fun nm => ("untrimmed" :: streams.map Prod.fst).map (fun p => (p, nm))) := by
  intro groups
  induction groups with
  | nil =>
    intro i streams hists acc rows histsOut h
    rw [summarizeRun] at h
    cases h
    exact ⟨0, by omega, by simp⟩
  | cons g rest ih =>
    intro i streams hists acc rows histsOut h
    rw [summarizeRun] at h
    obtain ⟨r, hstep, hrest⟩ := exbind_ok h
    obtain ⟨hmap, hkeys⟩ := stepGroup_tags hstep
    by_cases hstop : stopAfter mx i = true
    · rw [if_pos hstop] at hrest
      cases hrest
      refine ⟨1, by simp only [List.length_cons]; omega, ?_⟩
      rw [List.map_append, hmap]
      simp only [List.take_succ_cons, List.take_zero, List.map_cons, List.map_nil,
        bind_cons_pairs, bind_nil_pairs, List.append_nil]
    · rw [if_neg hstop] at hrest
      obtain ⟨k, hk, hmap2⟩ := ih (i + 1) r.2.1 r.2.2 (acc ++ r.1) rows histsOut hrest
      rw [hkeys] at hmap2
      refine ⟨k + 1, by simp only [List.length_cons]; omega, ?_⟩
      rw [hmap2, List.map_append, hmap]
      simp only [List.take_succ_cons, List.map_cons, bind_cons_pairs, List.cons_append,
        List.append_assoc]

theorem countP_bind_const (names keys : List String) (p : String) :
    ((names.bind (fun nm => keys.map (fun q => (q, nm)))).countP
        (fun t => decide (t.1 = p))) =
      names.length * keys.countP (fun q => decide (q = p)) := by
  induction names with
  | nil =>
    rw [bind_nil_pairs]
    simp
  | cons nm names ih =>
    simp only [bind_cons_pairs, List.countP_append, ih, List.length_cons]
    rw [List.countP_map]
    have hc : ((fun t : String × String => decide (t.1 = p)) ∘ fun q => (q, nm)) =
        fun q => decide (q = p) := rfl
    rw [hc]
    ring

theorem countP_one_of_nodup_mem : ∀ (keys : List String) (p : String), keys.Nodup →
    p ∈ keys → keys.countP (fun q => decide (q = p)) = 1 := by
  intro keys
  induction keys with
  | nil => intro p _ hp; exact absurd hp (List.not_mem_nil p)
  | cons q ks ih =>
    intro p hnd hp
    rw [List.countP_cons]
    rcases List.mem_cons.mp hp with rfl | hp2
    · have hpk : p ∉ ks := (List.nodup_cons.mp hnd).1
      have h0 : ks.countP (fun q => decide (q = p)) = 0 := by
        rw [List.countP_eq_zero]
        intro x hx
        simp only [decide_eq_true_eq]
        intro hxp
        exact hpk (hxp ▸ hx)
      simp [h0]
    · have hqp : ¬(q = p) := by
        intro hqp
        exact (List.nodup_cons.mp hnd).1 (hqp ▸ hp2)
      rw [ih p (List.nodup_cons.mp hnd).2 hp2]
      simp [hqp]

/-- C4: from any successful run, some prefix of the baseline stream (all of
it unless `max_reads` stopped the loop) was processed, and the written rows
are exactly one row per member of `('untrimmed',) + tuple(trimmed.keys())`
per processed baseline group, in order.  In particular every program's row
count equals the baseline prefix length `k`, so no program exceeds the
baseline row count. -/
theorem summarize_one_row_per_prog (useEd : Bool) (mx : Option Nat) (nb : Nat)
    (groups : List ReadGroup) (streams : Streams) (rows : List TableRow) (histsOut : Hists)
    (h : summarize useEd mx nb groups streams = .ok (rows, histsOut)) :
    ∃ k, k ≤ groups.length ∧
      rows.map (fun r => (r.prog, r.readName)) =
        ((groups.take k).map Prod.fst).bind
          (fun nm => ("untrimmed" :: streams.map Prod.fst).map (fun p => (p, nm))) ∧
      (("untrimmed" :: streams.map Prod.fst).Nodup →
        ∀ p ∈ ("untrimmed" :: streams.map Prod.fst),
          (rows.filter (fun r => r.prog = p)).length = k) := by
  obtain ⟨k, hk, hmap⟩ := summarizeRun_tags useEd mx groups 1 streams _ [] rows histsOut h
  simp only [List.map_nil, List.nil_append] at hmap
  refine ⟨k, hk, hmap, ?_⟩
  intro hnd p hp
  rw [← List.countP_eq_length_filter]
  have h1 : rows.countP (fun r => decide (r.prog = p)) =
      (rows.map (fun r => (r.prog, r.readName))).countP (fun t => decide (t.1 = p)) := by
    rw [List.countP_map]
    rfl
  rw [h1, hmap, countP_bind_const,
    countP_one_of_nodup_mem ("untrimmed" :: streams.map Prod.fst) p hnd hp, Nat.mul_one,
    List.length_map, List.length_take]
  omega

/-- Witness for C4 on the two-group baseline with one program stream. -/
theorem summarize_one_row_per_prog_witness :
    ∃ rows histsOut, summarize true none 4
        [("R1", [testRec "R1" true], [testRec "R1" false]),
         ("R2", [qcRec "R2" true], [testRec "R2" false])]
        [("P", [("R1", [testRec "R1" true], [testRec "R1" false])])] = .ok (rows, histsOut) ∧
      ∃ k, k ≤ ([("R1", [testRec "R1" true], [testRec "R1" false]),
          ("R2", [qcRec "R2" true], [testRec "R2" false])] : List ReadGroup).length ∧
        rows.map (fun r => (r.prog, r.readName)) =
          ((([("R1", [testRec "R1" true], [testRec "R1" false]),
              ("R2", [qcRec "R2" true], [testRec "R2" false])] : List ReadGroup).take k).map
            Prod.fst).bind
            (fun nm => ("untrimmed" ::
              ([("P", [("R1", [testRec "R1" true], [testRec "R1" false])])] : Streams).map
                Prod.fst).map (fun p => (p, nm))) ∧
        (("untrimmed" ::
            ([("P", [("R1", [testRec "R1" true], [testRec "R1" false])])] : Streams).map
              Prod.fst).Nodup →
          ∀ p ∈ ("untrimmed" ::
              ([("P", [("R1", [testRec "R1" true], [testRec "R1" false])])] : Streams).map
                Prod.fst),
            (rows.filter (fun r => r.prog = p)).length = k) :=
  ⟨_, _, rfl,
    summarize_one_row_per_prog true none 4
      [("R1", [testRec "R1" true], [testRec "R1" false]),
       ("R2", [qcRec "R2" true], [testRec "R2" false])]
      [("P", [("R1", [testRec "R1" true], [testRec "R1" false])])] _ _ rfl⟩
